import Mathlib

/-!
Shallow embedding of the clinical risk-scoring and presentation core of
`src/utils.py` (HEALTHMINDai).  Python dictionaries are modelled as
association lists of string keys, Python scalars by the inductive `Val`
below, and Python exceptions by the `Except PyErr` monad.  Numbers are
modelled exactly as rationals.
-/

namespace HealthMind

/-- Model of a Python runtime value as it appears in the data handled by
`utils.py`: `None`, booleans, numbers (int/float, modelled exactly as `ℚ`),
strings, lists, string-keyed dicts, and `datetime` objects (which carry the
string produced by `str(...)` on them). -/
inductive Val : Type where
  | none : Val
  | bool : Bool → Val
  | num : ℚ → Val
  | str : String → Val
  | list : List Val → Val
  | dict : List (String × Val) → Val
  | datetime : String → Val

/-- Python exceptions that the embedded code can raise. -/
inductive PyErr : Type where
  | typeError : PyErr
  | valueError : PyErr
  | attributeError : PyErr
deriving DecidableEq

/-- Python truthiness (`bool(v)`): `None`, `False`, `0`, `""`, `[]`, `{}`
are falsy, everything else is truthy. -/
def pyTruthy : Val → Bool
  | .none => false
  | .bool b => b
  | .num q => q ≠ 0
  | .str s => s ≠ ""
  | .list xs => ¬ xs.isEmpty
  | .dict d => ¬ d.isEmpty
  | .datetime _ => true

/-- `d.get(k)` / `k in d` lookup on the association-list model of a Python
dict (first matching key; Python dicts have unique keys). -/
def dictGet (d : List (String × Val)) (k : String) : Option Val :=
  (d.find? (fun p => p.1 == k)).map (fun p => p.2)

/-- Little-endian base-10 digits, fuel-bounded so it evaluates by kernel
reduction (`fuel = n` always suffices). -/
def natDigitsAux : Nat → Nat → List Nat
  | 0, _ => []
  | fuel + 1, n => if n = 0 then [] else n % 10 :: natDigitsAux fuel (n / 10)

/-- Little-endian base-10 digits of `n` (empty for 0). -/
def natDigitsLE (n : Nat) : List Nat := natDigitsAux n n

/-- Decimal digits of a natural number, most significant first, as chars. -/
def natChars (n : Nat) : List Char :=
  if n = 0 then ['0']
  else ((natDigitsLE n).reverse).map (fun d => Char.ofNat (48 + d))

def natStr (n : Nat) : String := String.mk (natChars n)

/-- Fractional decimal digits of `q` (expected in `[0,1)`), bounded by
`fuel`; `Option.none` when the expansion does not terminate within `fuel`. -/
def fracDigits : Nat → ℚ → Option (List Nat)
  | 0, q => if q = 0 then some [] else Option.none
  | fuel + 1, q =>
    if q = 0 then some []
    else (fracDigits fuel (Int.fract (q * 10))).map
      (fun ds => (Int.floor (q * 10)).toNat :: ds)

/-- Digit-printing fuel: every IEEE double has a terminating decimal
expansion of fewer than 1100 fractional digits, so this bound is enough for
any value a Python float can hold. -/
def digitFuel : Nat := 1200

/-- Model of Python `str(...)` on a float value: sign, integer part, a dot,
and the fractional digits (`".0"` when the value is integral), e.g.
`39.2 ↦ "39.2"`, `90 ↦ "90.0"`. -/
def pyFloatRepr (q : ℚ) : String :=
  let sign := if q < 0 then "-" else ""
  let a := |q|
  let ip : Nat := (Int.floor a).toNat
  match fracDigits digitFuel (Int.fract a) with
  | some [] => sign ++ natStr ip ++ ".0"
  | some ds => sign ++ natStr ip ++ "." ++ String.mk (ds.map (fun d => Char.ofNat (48 + d)))
  | Option.none => sign ++ natStr ip ++ ".0"

/-- Round to the nearest integer, ties to even (the rounding Python's
`format` applies when printing a float with a fixed number of decimals). -/
def roundHalfEven (q : ℚ) : ℤ :=
  let f := Int.floor q
  let r := q - f
  if r < 1/2 then f
  else if 1/2 < r then f + 1
  else if f % 2 = 0 then f else f + 1

/-- Model of the Python format `f"{q:.1%}"`: the value times 100, printed
with exactly one decimal digit, followed by `%` (e.g. `0.85 ↦ "85.0%"`). -/
def formatPercent1 (q : ℚ) : String :=
  let m := roundHalfEven (q * 1000)
  let sign := if m < 0 then "-" else ""
  let n := m.natAbs
  sign ++ natStr (n / 10) ++ "." ++ natStr (n % 10) ++ "%"

/-- Model of Python `str.title()` restricted to ASCII letters: the first
letter of every maximal letter run is upper-cased, the rest lower-cased. -/
def pyTitleChars : Bool → List Char → List Char
  | _, [] => []
  | prevAlpha, c :: cs =>
    if c.isAlpha then
      (if prevAlpha then c.toLower else c.toUpper) :: pyTitleChars true cs
    else
      c :: pyTitleChars false cs

def pyTitle (s : String) : String := String.mk (pyTitleChars false s.data)

/-- `finding.replace('_', ' ').title()` as used for risk-factor strings. -/
def titleName (s : String) : String := pyTitle (s.replace "_" " ")

/-- Model of Python `float(s)` on a string: optional surrounding spaces,
optional sign, decimal digits with at most one dot (at least one digit);
`Option.none` models `ValueError`.  (Exponent and inf/nan forms are not
used by the data this repository feeds in.) -/
def parsePyFloatChars (cs : List Char) : Option ℚ :=
  let cs := cs.dropWhile (fun c => c = ' ')
  let cs := (cs.reverse.dropWhile (fun c => c = ' ')).reverse
  let (sign, cs) : ℚ × List Char :=
    match cs with
    | '-' :: rest => (-1, rest)
    | '+' :: rest => (1, rest)
    | _ => (1, cs)
  let (ip, rest) := cs.span Char.isDigit
  let ipVal : ℚ := (ip.foldl (fun acc c => acc * 10 + (c.toNat - 48)) 0 : ℕ)
  match rest with
  | [] => if ip = [] then Option.none else some (sign * ipVal)
  | '.' :: rest2 =>
    let (fp, rest3) := rest2.span Char.isDigit
    if rest3 = [] ∧ (ip ≠ [] ∨ fp ≠ []) then
      some (sign * (ipVal + fp.foldr (fun c acc => ((c.toNat - 48 : ℕ) + acc) / 10) 0))
    else Option.none
  | _ => Option.none

def parsePyFloat (s : String) : Option ℚ := parsePyFloatChars s.data

/-- Model of Python `float(v)` on an arbitrary value: numbers and booleans
convert, strings are parsed (`ValueError` on failure), everything else is a
`TypeError`. -/
def pyFloat : Val → Except PyErr ℚ
  | .num q => .ok q
  | .bool b => .ok (if b then 1 else 0)
  | .str s =>
    match parsePyFloat s with
    | some q => .ok q
    | Option.none => .error .valueError
  | _ => .error .typeError

/-- The color/level pair computed by `display_confidence_score`
(`src/utils.py` lines 9-22); the Streamlit markdown rendering is
presentation and out of scope. -/
def display_confidence_score (score : ℚ) : String × String :=
  if score ≥ 0.8 then ("#28a745", "High")
  else if score ≥ 0.6 then ("#ffc107", "Moderate")
  else if score ≥ 0.4 then ("#fd7e14", "Low")
  else ("#dc3545", "Very Low")

/-- One vital check of `validate_vital_signs` applied to the looked-up
value: `if vitals.get(k):`, then `float(...)` inside `try/except
ValueError`, yielding either the warnings from `warn` or the fixed
invalid-value warning. -/
def vitalCheckStep (v? : Option Val) (warn : ℚ → List String) (invalid : String) :
    Except PyErr (List String) :=
  match v? with
  | some v =>
    if pyTruthy v then
      match pyFloat v with
      | .ok q => .ok (warn q)
      | .error .valueError => .ok [invalid]
      | .error e => .error e
    else .ok []
  | Option.none => .ok []

def vitalCheck (vitals : List (String × Val)) (k : String)
    (warn : ℚ → List String) (invalid : String) : Except PyErr (List String) :=
  vitalCheckStep (dictGet vitals k) warn invalid

def tempWarn (q : ℚ) : List String :=
  if q > 38 then ["High temperature: " ++ pyFloatRepr q ++ "°C (normal: 36-37.5°C)"]
  else if q < 36 then ["Low temperature: " ++ pyFloatRepr q ++ "°C (normal: 36-37.5°C)"]
  else []

def hrWarn (q : ℚ) : List String :=
  if q > 100 then ["Tachycardia: " ++ pyFloatRepr q ++ " bpm (normal: 60-100 bpm)"]
  else if q < 60 then ["Bradycardia: " ++ pyFloatRepr q ++ " bpm (normal: 60-100 bpm)"]
  else []

def sbpWarn (q : ℚ) : List String :=
  if q > 140 then ["High systolic BP: " ++ pyFloatRepr q ++ " mmHg (normal: <120 mmHg)"]
  else if q < 90 then ["Low systolic BP: " ++ pyFloatRepr q ++ " mmHg (normal: >90 mmHg)"]
  else []

def spo2Warn (q : ℚ) : List String :=
  if q < 95 then ["Low oxygen saturation: " ++ pyFloatRepr q ++ "% (normal: >95%)"]
  else []

/-- `validate_vital_signs` (`src/utils.py` lines 271-313): the four checks
in source order; a `TypeError` escaping a check aborts the call (only
`ValueError` is caught in the source). -/
def validate_vital_signs (vitals : List (String × Val)) : Except PyErr (List String) := do
  let w1 ← vitalCheck vitals "temperature" tempWarn "Invalid temperature value"
  let w2 ← vitalCheck vitals "heart_rate" hrWarn "Invalid heart rate value"
  let w3 ← vitalCheck vitals "systolic_bp" sbpWarn "Invalid systolic blood pressure value"
  let w4 ← vitalCheck vitals "oxygen_saturation" spo2Warn "Invalid oxygen saturation value"
  return w1 ++ w2 ++ w3 ++ w4

def urgentNames : List String := ["pneumonia", "pneumothorax", "pulmonary_edema"]

/-- Numeric view of a value compared against a float literal: Python
compares ints/floats/bools, anything else raises `TypeError`. -/
def numView : Val → Except PyErr ℚ
  | .num q => .ok q
  | .bool b => .ok (if b then 1 else 0)
  | _ => .error .typeError

/-- One iteration of the findings loop of `calculate_risk_score`
(`src/utils.py` lines 356-361).  Note the `prob > 0.5` comparison is not
guarded by any `try/except`. -/
def riskFinding (acc : ℚ × List String) (nd : String × Val) :
    Except PyErr (ℚ × List String) :=
  match nd.2 with
  | .dict details =>
    match dictGet details "probability" with
    | some p =>
      if pyTruthy p then
        if nd.1 ∈ urgentNames then
          match numView p with
          | .ok q =>
            if q > 0.5 then
              .ok (acc.1 + q * 0.3,
                   acc.2 ++ [titleName nd.1 ++ " (" ++ formatPercent1 q ++ ")"])
            else .ok acc
          | .error e => .error e
        else .ok acc
      else .ok acc
    | Option.none => .ok acc
  | _ => .ok acc

/-- One vital contribution of `calculate_risk_score` applied to the
looked-up value: `if vitals.get(k):`, `float` under
`try/except ValueError: pass`, and when `cond` holds add `delta` and
append the factor string. -/
def riskVitalStep (v? : Option Val) (cond : ℚ → Bool)
    (delta : ℚ) (factor : ℚ → String) (acc : ℚ × List String) :
    Except PyErr (ℚ × List String) :=
  match v? with
  | some v =>
    if pyTruthy v then
      match pyFloat v with
      | .ok q => if cond q then .ok (acc.1 + delta, acc.2 ++ [factor q]) else .ok acc
      | .error .valueError => .ok acc
      | .error e => .error e
    else .ok acc
  | Option.none => .ok acc

def riskVital (vitalsD : List (String × Val)) (k : String) (cond : ℚ → Bool)
    (delta : ℚ) (factor : ℚ → String) (acc : ℚ × List String) :
    Except PyErr (ℚ × List String) :=
  riskVitalStep (dictGet vitalsD k) cond delta factor acc

def feverFactor (q : ℚ) : String := "Fever (" ++ pyFloatRepr q ++ "°C)"

def spo2Factor (q : ℚ) : String := "Low SpO2 (" ++ pyFloatRepr q ++ "%)"

def tachyFactor (q : ℚ) : String := "Tachycardia (" ++ pyFloatRepr q ++ " bpm)"

/-- The clinical-data block of `calculate_risk_score` (`src/utils.py`
lines 363-395): temperature, oxygen saturation, heart rate, in order. -/
def riskVitals (vitalsD : List (String × Val)) (acc : ℚ × List String) :
    Except PyErr (ℚ × List String) := do
  let a1 ← riskVital vitalsD "temperature" (fun q => q > 38) 0.1 feverFactor acc
  let a2 ← riskVital vitalsD "oxygen_saturation" (fun q => q < 95) 0.2 spo2Factor a1
  riskVital vitalsD "heart_rate" (fun q => q > 120) 0.1 tachyFactor a2

/-- The `if clinical_data:` block of `calculate_risk_score`
(`src/utils.py` lines 363-395): skipped for a falsy mapping, otherwise
`vitals = clinical_data.get('vitals', {})` followed by the three checks;
a non-dict `vitals` raises `AttributeError` at `vitals.get(...)`. -/
def clinicalBlock (clinical_data : List (String × Val)) (acc : ℚ × List String) :
    Except PyErr (ℚ × List String) :=
  if clinical_data.isEmpty then pure acc
  else
    match (dictGet clinical_data "vitals").getD (Val.dict []) with
    | .dict vs => riskVitals vs acc
    | _ => (.error .attributeError : Except PyErr (ℚ × List String))

/-- `calculate_risk_score` (`src/utils.py` lines 349-400): findings
contribution, then vitals contribution, then the cap at 1.0. -/
def calculate_risk_score (findings : List (String × Val))
    (clinical_data : List (String × Val)) : Except PyErr (ℚ × List String) := do
  let acc ← findings.foldlM riskFinding ((0 : ℚ), ([] : List String))
  let acc2 ← clinicalBlock clinical_data acc
  return (min acc2.1 1, acc2.2)

/-- The severity bucketing performed by `display_findings_summary`
(`src/utils.py` lines 196-204), returned as the three bucket lists
`(high, moderate, low)` in the order the findings were appended; the
rendering of the buckets is presentation and out of scope.  Membership of
the key `'probability'` (not truthiness) selects classified findings, and
the `prob >= 0.7` comparison is unguarded. -/
def classifyStep
    (acc : List (String × Val) × List (String × Val) × List (String × Val))
    (nd : String × Val) :
    Except PyErr (List (String × Val) × List (String × Val) × List (String × Val)) :=
  match nd.2 with
  | .dict details =>
    match dictGet details "probability" with
    | some p =>
      match numView p with
      | .ok q =>
        if q ≥ 0.7 then .ok (acc.1 ++ [nd], acc.2.1, acc.2.2)
        else if q ≥ 0.3 then .ok (acc.1, acc.2.1 ++ [nd], acc.2.2)
        else .ok (acc.1, acc.2.1, acc.2.2 ++ [nd])
      | .error e => .error e
    | Option.none => .ok acc
  | _ => .ok acc

def display_findings_summary (findings : List (String × Val)) :
    Except PyErr (List (String × Val) × List (String × Val) × List (String × Val)) :=
  findings.foldlM classifyStep
    (([] : List (String × Val)), ([] : List (String × Val)), ([] : List (String × Val)))

/-!
Spec-side definitions, transcribed from the words of the specification and
the claims; they are compared with the source embedding above in
refinement-style theorems.
-/

/-- The raw probability entry of a finding's detail object, when the
detail is a dict that has one. -/
def probVal : Val → Option Val
  | .dict e => dictGet e "probability"
  | _ => Option.none

/-- The numeric probability of a finding, when present and numeric. -/
def probNum (d : Val) : Option ℚ :=
  match probVal d with
  | some (.num q) => some q
  | _ => Option.none

/-- The numeric value of a vitals entry, when present and numeric. -/
def vitalNum (vit : List (String × Val)) (k : String) : Option ℚ :=
  match dictGet vit k with
  | some (.num q) => some q
  | _ => Option.none

/-- Spec-side image-finding contributions (risk rule for image findings):
for each finding named in the clinically-urgent set whose probability
exceeds 0.5, the pair of its score term `probability * 0.3` and its
factor string, in input insertion order. -/
def specFindingTerms (findings : List (String × Val)) : List (ℚ × String) :=
  findings.filterMap (fun nd =>
    match probNum nd.2 with
    | some q =>
      if nd.1 ∈ urgentNames ∧ q > 0.5 then
        some (q * 0.3, titleName nd.1 ++ " (" ++ formatPercent1 q ++ ")")
      else Option.none
    | Option.none => Option.none)

/-- Spec-side vitals contributions exactly as the claim words them:
0.1 for temperature present and above 38, 0.2 for oxygen saturation
present and below 95, 0.1 for heart rate present and above 120. -/
def specVitalTermsClaim (vit : List (String × Val)) : List (ℚ × String) :=
  (match vitalNum vit "temperature" with
   | some t => if t > 38 then [((0.1 : ℚ), feverFactor t)] else []
   | Option.none => [])
  ++ (match vitalNum vit "oxygen_saturation" with
      | some o => if o < 95 then [((0.2 : ℚ), spo2Factor o)] else []
      | Option.none => [])
  ++ (match vitalNum vit "heart_rate" with
      | some h => if h > 120 then [((0.1 : ℚ), tachyFactor h)] else []
      | Option.none => [])

/-- One amended spec-side vitals rule: when the vital is present, nonzero
(a zero value is treated as absent — the truthiness gate) and satisfies
the rule's condition, it contributes `(delta, factor)`. -/
def vitalTermBlock (q? : Option ℚ) (cond : ℚ → Bool) (delta : ℚ)
    (factor : ℚ → String) : List (ℚ × String) :=
  match q? with
  | some q => if q ≠ 0 ∧ cond q then [(delta, factor q)] else []
  | Option.none => []

/-- Amended spec-side vitals contributions: as `specVitalTermsClaim`, but
a vital whose value is 0 is treated as absent.  (For temperature and
heart rate the nonzero gate is vacuous — 0 is neither above 38 nor above
120 — so only the oxygen-saturation rule actually changes.) -/
def specVitalTerms (vit : List (String × Val)) : List (ℚ × String) :=
  vitalTermBlock (vitalNum vit "temperature") (fun t => t > 38) 0.1 feverFactor
    ++ vitalTermBlock (vitalNum vit "oxygen_saturation") (fun o => o < 95) 0.2 spo2Factor
    ++ vitalTermBlock (vitalNum vit "heart_rate") (fun h => h > 120) 0.1 tachyFactor

/-- Risk score the claim predicts (before the final clamp), as worded. -/
def specRiskSumClaim (findings vit : List (String × Val)) : ℚ :=
  ((specFindingTerms findings).map Prod.fst).sum
    + ((specVitalTermsClaim vit).map Prod.fst).sum

/-- Amended predicted risk score (before the final clamp). -/
def specRiskSum (findings vit : List (String × Val)) : ℚ :=
  ((specFindingTerms findings).map Prod.fst).sum
    + ((specVitalTerms vit).map Prod.fst).sum

/-- Amended predicted risk-factor list, in rule-evaluation order: image
findings first in insertion order, then temperature, oxygen saturation,
heart rate. -/
def specRiskFactors (findings vit : List (String × Val)) : List String :=
  (specFindingTerms findings).map Prod.snd
    ++ (specVitalTerms vit).map Prod.snd

/-- Vital-sign warnings exactly as the claim words them: one warning per
violated bound, per parameter in source order (temperature, heart rate,
systolic blood pressure, oxygen saturation). -/
def specVitalWarningsClaim (vit : List (String × Val)) : List String :=
  (match vitalNum vit "temperature" with
   | some t => tempWarn t
   | Option.none => [])
  ++ (match vitalNum vit "heart_rate" with
      | some h => hrWarn h
      | Option.none => [])
  ++ (match vitalNum vit "systolic_bp" with
      | some s => sbpWarn s
      | Option.none => [])
  ++ (match vitalNum vit "oxygen_saturation" with
      | some o => spo2Warn o
      | Option.none => [])

/-- Amended vital-sign warnings: as `specVitalWarningsClaim`, but a vital
whose value is 0 is treated as absent (Python truthiness gate). -/
def specVitalWarnings (vit : List (String × Val)) : List String :=
  (match vitalNum vit "temperature" with
   | some t => if t = 0 then [] else tempWarn t
   | Option.none => [])
  ++ (match vitalNum vit "heart_rate" with
      | some h => if h = 0 then [] else hrWarn h
      | Option.none => [])
  ++ (match vitalNum vit "systolic_bp" with
      | some s => if s = 0 then [] else sbpWarn s
      | Option.none => [])
  ++ (match vitalNum vit "oxygen_saturation" with
      | some o => if o = 0 then [] else spo2Warn o
      | Option.none => [])

/-- A findings mapping is well typed when every probability entry that is
present holds a number (the invariant the spec's data model states). -/
def WellTypedFindings (findings : List (String × Val)) : Prop :=
  ∀ nd ∈ findings, ∀ p, probVal nd.2 = some p → ∃ q, p = Val.num q

/-- All values of the listed keys, when present, are numbers. -/
def NumericOn (ks : List String) (vit : List (String × Val)) : Prop :=
  ∀ k ∈ ks, ∀ v, dictGet vit k = some v → ∃ q, v = Val.num q

def riskVitalKeys : List String := ["temperature", "oxygen_saturation", "heart_rate"]

def validatorKeys : List String := ["temperature", "heart_rate", "systolic_bp", "oxygen_saturation"]

/-- Classifier bucket predicates, with the thresholds as the claim words
them: High `p ≥ 0.7`, Moderate `0.3 ≤ p < 0.7`, Low `p < 0.3`; a finding
with no numeric probability belongs to no bucket. -/
def highBucketP (nd : String × Val) : Bool :=
  match probNum nd.2 with
  | some q => decide (q ≥ 0.7)
  | Option.none => false

def moderateBucketP (nd : String × Val) : Bool :=
  match probNum nd.2 with
  | some q => decide (0.3 ≤ q ∧ q < 0.7)
  | Option.none => false

def lowBucketP (nd : String × Val) : Bool :=
  match probNum nd.2 with
  | some q => decide (q < 0.3)
  | Option.none => false

/-- The part of a findings mapping `calculate_risk_score` can see: the
entries bearing a clinically-urgent name, in order. -/
def urgentProj (findings : List (String × Val)) : List (String × Val) :=
  findings.filter (fun nd => decide (nd.1 ∈ urgentNames))

/-- The part of a clinical-data mapping `calculate_risk_score` can see:
the three vitals lookups (`Option.none` when the `vitals` entry is not a
mapping, in which case the source raises `AttributeError`). -/
def vitalsView (clinical : List (String × Val)) :
    Option (Option Val × Option Val × Option Val) :=
  match (dictGet clinical "vitals").getD (Val.dict []) with
  | .dict vs =>
    some (dictGet vs "temperature", dictGet vs "oxygen_saturation", dictGet vs "heart_rate")
  | _ => Option.none

/-- The clinical contribution as a function of the three-lookup view:
`calculate_risk_score` factors through this function (see
`clinicalBlock_eq_view`), which is what makes every other clinical field
irrelevant to the result. -/
def viewContribution :
    Option (Option Val × Option Val × Option Val) → ℚ × List String →
      Except PyErr (ℚ × List String)
  | Option.none, _ => .error .attributeError
  | some (t, o, h), acc => do
    let a1 ← riskVitalStep t (fun q => q > 38) 0.1 feverFactor acc
    let a2 ← riskVitalStep o (fun q => q < 95) 0.2 spo2Factor a1
    riskVitalStep h (fun q => q > 120) 0.1 tachyFactor a2

/-- The entries of a mapping whose values are truthy. -/
def truthyEntries (d : List (String × Val)) : List (String × Val) :=
  d.filter (fun p => pyTruthy p.2)

/-- Keys are pairwise distinct (always true of a Python dict). -/
def nodupKeys (d : List (String × Val)) : Prop := (d.map Prod.fst).Nodup

/-- Boolean checker for `WellTypedFindings`, evaluable on closed inputs. -/
def wellTypedB (f : List (String × Val)) : Bool :=
  f.all (fun nd =>
    match probVal nd.2 with
    | some (Val.num _) => true
    | some _ => false
    | Option.none => true)

/-- Boolean checker for `NumericOn`, evaluable on closed inputs. -/
def numericOnB (ks : List String) (vit : List (String × Val)) : Bool :=
  ks.all (fun k =>
    match dictGet vit k with
    | some (Val.num _) => true
    | some _ => false
    | Option.none => true)

/-!
JSON serialization model for the export round trip (claim C9).
-/

/-!
JSON serialization model.
-/

/-- The value `json.loads` reconstructs from the serialized form: every
`datetime` has been degraded to its string form by `default=str`. -/
def degrade : Val → Val
  | .none => .none
  | .bool b => .bool b
  | .num q => .num q
  | .str s => .str s
  | .datetime s => .str s
  | .list xs => .list (xs.attach.map (fun x => degrade x.1))
  | .dict d => .dict (d.attach.map (fun p => (p.1.1, degrade p.1.2)))
decreasing_by
  · have h := List.sizeOf_lt_of_mem x.2
    simp
    omega
  · have h := List.sizeOf_lt_of_mem p.2
    have h2 : sizeOf p.1.2 < sizeOf p.1 := by
      obtain ⟨⟨a, b⟩, hp⟩ := p
      simp
    simp
    omega

/-- Lowercase hexadecimal digit. -/
def hexDigit (n : Nat) : Char :=
  Char.ofNat (if n < 10 then 48 + n else 87 + n)

/-- Four lowercase hex digits, most significant first (`\uXXXX` body). -/
def hex4 (n : Nat) : List Char :=
  [hexDigit (n / 4096 % 16), hexDigit (n / 256 % 16), hexDigit (n / 16 % 16), hexDigit (n % 16)]

/-- Model of the escaping `json.dumps` (with its default
`ensure_ascii=True`) applies to one character: the two-character escapes
for quote, backslash and common control characters, printable ASCII kept
as is, and everything else as `\uXXXX` (a surrogate pair beyond the basic
multilingual plane). -/
def escChar (c : Char) : List Char :=
  if c = '"' then ['\\', '"']
  else if c = '\\' then ['\\', '\\']
  else if c = '\n' then ['\\', 'n']
  else if c = '\t' then ['\\', 't']
  else if c = '\r' then ['\\', 'r']
  else if c.toNat = 8 then ['\\', 'b']
  else if c.toNat = 12 then ['\\', 'f']
  else if 32 ≤ c.toNat ∧ c.toNat < 127 then [c]
  else if c.toNat < 65536 then '\\' :: 'u' :: hex4 c.toNat
  else
    ('\\' :: 'u' :: hex4 (55296 + (c.toNat - 65536) / 1024))
      ++ ('\\' :: 'u' :: hex4 (56320 + (c.toNat - 65536) % 1024))

def escList (cs : List Char) : List Char :=
  cs.foldr (fun c acc => escChar c ++ acc) []

/-- The serialized form of a number: Python prints an int without a
decimal point, and `json.dumps` of a float value uses its (terminating)
decimal expansion.  A `Val.num` holds one rational, so an integral value
prints in the int form; a non-integral one prints its exact expansion. -/
def jsonNumChars (q : ℚ) : List Char :=
  let sign : List Char := if q < 0 then ['-'] else []
  let a : ℚ := |q|
  let ip : Nat := (Int.floor a).toNat
  match fracDigits digitFuel (Int.fract a) with
  | some [] => sign ++ natChars ip
  | some ds => sign ++ natChars ip ++ '.' :: ds.map (fun d => Char.ofNat (48 + d))
  | Option.none => sign ++ natChars ip

def spaces (n : Nat) : List Char := List.replicate n ' '

/-!
Printer modelling `json.dumps(case_data, indent=2, default=str)`: each
nesting level indented by two spaces, items separated by `",\n"`, keys by
`": "`, empty containers printed inline, `datetime` values rendered by
`default=str` as their string form and then serialized as JSON strings.
-/

mutual

def jsonVal : Nat → Val → List Char
  | _, .none => ['n', 'u', 'l', 'l']
  | _, .bool true => ['t', 'r', 'u', 'e']
  | _, .bool false => ['f', 'a', 'l', 's', 'e']
  | _, .num q => jsonNumChars q
  | _, .str s => '"' :: escList s.data ++ ['"']
  | _, .datetime s => '"' :: escList s.data ++ ['"']
  | _, .list [] => ['[', ']']
  | lvl, .list (x :: xs) =>
    '[' :: '\n' :: jsonItems (lvl + 1) (x :: xs)
      ++ '\n' :: spaces (2 * lvl) ++ [']']
  | _, .dict [] => ['\x7b', '\x7d']
  | lvl, .dict (e :: es) =>
    '\x7b' :: '\n' :: jsonEntries (lvl + 1) (e :: es)
      ++ '\n' :: spaces (2 * lvl) ++ ['\x7d']

def jsonItems : Nat → List Val → List Char
  | _, [] => []
  | lvl, [x] => spaces (2 * lvl) ++ jsonVal lvl x
  | lvl, x :: y :: xs =>
    spaces (2 * lvl) ++ jsonVal lvl x ++ ',' :: '\n' :: jsonItems lvl (y :: xs)

def jsonEntries : Nat → List (String × Val) → List Char
  | _, [] => []
  | lvl, [(k, v)] =>
    spaces (2 * lvl) ++ '"' :: escList k.data ++ '"' :: ':' :: ' ' :: jsonVal lvl v
  | lvl, (k, v) :: e :: es =>
    spaces (2 * lvl) ++ '"' :: escList k.data ++ '"' :: ':' :: ' ' :: jsonVal lvl v
      ++ ',' :: '\n' :: jsonEntries lvl (e :: es)

end

/-- Model of the `format == 'json'` branch of `export_case_data`
(`src/utils.py` lines 315-318): `json.dumps(case_data, indent=2,
default=str)`. -/
def export_case_data_json (case_data : Val) : String :=
  String.mk (jsonVal 0 case_data)

mutual

/-- A value is JSON-compatible (claim C9's hypothesis) when its numbers
have terminating decimal expansions (as every Python float does), and its
mappings have distinct string keys (as every Python dict does);
`datetime` values are allowed and are the ones `default=str` degrades. -/
def jsonCompat : Val → Bool
  | .none => true
  | .bool _ => true
  | .num q => (fracDigits digitFuel (Int.fract |q|)).isSome
  | .str _ => true
  | .datetime _ => true
  | .list xs => jsonCompatList xs
  | .dict d => decide ((d.map Prod.fst).Nodup) && jsonCompatEntries d

def jsonCompatList : List Val → Bool
  | [] => true
  | x :: xs => jsonCompat x && jsonCompatList xs

def jsonCompatEntries : List (String × Val) → Bool
  | [] => true
  | e :: es => jsonCompat e.2 && jsonCompatEntries es

end

mutual

/-- True when the value contains no `datetime`: on such values `degrade`
is the identity and the round trip is lossless. -/
def noDatetime : Val → Bool
  | .none => true
  | .bool _ => true
  | .num _ => true
  | .str _ => true
  | .datetime _ => false
  | .list xs => noDatetimeList xs
  | .dict d => noDatetimeEntries d

def noDatetimeList : List Val → Bool
  | [] => true
  | x :: xs => noDatetime x && noDatetimeList xs

def noDatetimeEntries : List (String × Val) → Bool
  | [] => true
  | e :: es => noDatetime e.2 && noDatetimeEntries es

end

/-!
Parser modelling `json.loads` on the output shapes `json.dumps` produces
(no exponent notation, which the printer never emits).
-/

def isWs (c : Char) : Bool := c = ' ' ∨ c = '\n' ∨ c = '\t' ∨ c = '\r'

def skipWs (cs : List Char) : List Char := cs.dropWhile isWs

def hexVal? (c : Char) : Option Nat :=
  if 48 ≤ c.toNat ∧ c.toNat ≤ 57 then some (c.toNat - 48)
  else if 97 ≤ c.toNat ∧ c.toNat ≤ 102 then some (c.toNat - 87)
  else if 65 ≤ c.toNat ∧ c.toNat ≤ 70 then some (c.toNat - 55)
  else Option.none

def parseHex4 : List Char → Option (Nat × List Char)
  | a :: b :: c :: d :: rest =>
    match hexVal? a, hexVal? b, hexVal? c, hexVal? d with
    | some x, some y, some z, some w => some (x * 4096 + y * 256 + z * 16 + w, rest)
    | _, _, _, _ => Option.none
  | _ => Option.none

def parseStrStep (rec : List Char → Option (List Char × List Char))
    (c : Char) (cs : List Char) : Option (List Char × List Char) :=
  if c = '"' then some ([], cs)
  else if c = '\\' then
    match cs with
    | [] => Option.none
    | e :: cs2 =>
      if e = '"' then (rec cs2).map (fun r => ('"' :: r.1, r.2))
      else if e = '\\' then (rec cs2).map (fun r => ('\\' :: r.1, r.2))
      else if e = '/' then (rec cs2).map (fun r => ('/' :: r.1, r.2))
      else if e = 'n' then (rec cs2).map (fun r => ('\n' :: r.1, r.2))
      else if e = 't' then (rec cs2).map (fun r => ('\t' :: r.1, r.2))
      else if e = 'r' then (rec cs2).map (fun r => ('\r' :: r.1, r.2))
      else if e = 'b' then (rec cs2).map (fun r => (Char.ofNat 8 :: r.1, r.2))
      else if e = 'f' then (rec cs2).map (fun r => (Char.ofNat 12 :: r.1, r.2))
      else if e = 'u' then
        match parseHex4 cs2 with
        | some (n, cs3) =>
          if 55296 ≤ n ∧ n ≤ 56319 then
            match cs3 with
            | '\\' :: 'u' :: cs4 =>
              match parseHex4 cs4 with
              | some (m, cs5) =>
                if 56320 ≤ m ∧ m ≤ 57343 then
                  (rec cs5).map
                    (fun r => (Char.ofNat (65536 + (n - 55296) * 1024 + (m - 56320)) :: r.1, r.2))
                else Option.none
              | Option.none => Option.none
            | _ => Option.none
          else if 56320 ≤ n ∧ n ≤ 57343 then Option.none
          else (rec cs3).map (fun r => (Char.ofNat n :: r.1, r.2))
        | Option.none => Option.none
      else Option.none
  else (rec cs).map (fun r => (c :: r.1, r.2))

/-- JSON string body (after the opening quote), fuel-bounded; returns the
decoded characters and the input after the closing quote.  Handles the
short escapes, `\uXXXX`, and surrogate pairs; a lone surrogate escape is
rejected (Lean characters are Unicode scalar values). -/
def parseStrBody : Nat → List Char → Option (List Char × List Char)
  | 0, _ => Option.none
  | _, [] => Option.none
  | fuel + 1, c :: cs => parseStrStep (parseStrBody fuel) c cs

/-- JSON number: optional minus, integer digits, optional fraction. -/
def parseNumAux (neg : Bool) (cs : List Char) : Option (ℚ × List Char) :=
  let (ip, rest) := cs.span Char.isDigit
  if ip = [] then Option.none
  else
    let ipv : ℚ := (ip.foldl (fun acc c => acc * 10 + (c.toNat - 48)) 0 : ℕ)
    match rest with
    | c2 :: rest2 =>
      if c2 = '.' then
        let (fp, rest3) := rest2.span Char.isDigit
        if fp = [] then Option.none
        else
          let v := ipv + fp.foldr (fun c acc => (((c.toNat - 48 : ℕ) : ℚ) + acc) / 10) 0
          some (if neg then -v else v, rest3)
      else some (if neg then -ipv else ipv, rest)
    | [] => some (if neg then -ipv else ipv, rest)

def parseJsonNum (cs : List Char) : Option (ℚ × List Char) :=
  match cs with
  | c :: r => if c = '-' then parseNumAux true r else parseNumAux false (c :: r)
  | [] => parseNumAux false cs

mutual

def parseJson : Nat → List Char → Option (Val × List Char)
  | 0, _ => Option.none
  | fuel + 1, cs0 =>
    match skipWs cs0 with
    | [] => Option.none
    | c :: cs1 =>
      if c = 'n' then
        match cs1 with
        | 'u' :: 'l' :: 'l' :: r => some (.none, r)
        | _ => Option.none
      else if c = 't' then
        match cs1 with
        | 'r' :: 'u' :: 'e' :: r => some (.bool true, r)
        | _ => Option.none
      else if c = 'f' then
        match cs1 with
        | 'a' :: 'l' :: 's' :: 'e' :: r => some (.bool false, r)
        | _ => Option.none
      else if c = '"' then
        (parseStrBody (cs1.length + 1) cs1).map (fun r => (.str (String.mk r.1), r.2))
      else if c = '[' then
        match skipWs cs1 with
        | d :: r =>
          if d = ']' then some (.list [], r)
          else (parseItems fuel cs1).map (fun r => (.list r.1, r.2))
        | [] => (parseItems fuel cs1).map (fun r => (.list r.1, r.2))
      else if c = '\x7b' then
        match skipWs cs1 with
        | d :: r =>
          if d = '\x7d' then some (.dict [], r)
          else (parseEntries fuel cs1).map (fun r => (.dict r.1, r.2))
        | [] => (parseEntries fuel cs1).map (fun r => (.dict r.1, r.2))
      else if c = '-' ∨ c.isDigit then
        (parseJsonNum (c :: cs1)).map (fun r => (.num r.1, r.2))
      else Option.none

def parseItems : Nat → List Char → Option (List Val × List Char)
  | 0, _ => Option.none
  | fuel + 1, cs =>
    match parseJson fuel cs with
    | some (v, rest) =>
      match skipWs rest with
      | ',' :: r2 => (parseItems fuel r2).map (fun t => (v :: t.1, t.2))
      | ']' :: r2 => some ([v], r2)
      | _ => Option.none
    | Option.none => Option.none

def parseEntries : Nat → List Char → Option (List (String × Val) × List Char)
  | 0, _ => Option.none
  | fuel + 1, cs =>
    match skipWs cs with
    | '"' :: cs1 =>
      match parseStrBody (cs1.length + 1) cs1 with
      | some (kcs, r1) =>
        match skipWs r1 with
        | ':' :: r2 =>
          match parseJson fuel r2 with
          | some (v, r3) =>
            match skipWs r3 with
            | ',' :: r4 =>
              (parseEntries fuel r4).map (fun t => ((String.mk kcs, v) :: t.1, t.2))
            | '\x7d' :: r4 => some ([(String.mk kcs, v)], r4)
            | _ => Option.none
          | Option.none => Option.none
        | _ => Option.none
      | Option.none => Option.none
    | _ => Option.none

end

/-- Model of `json.loads` applied to a whole document: parse one value
and require only whitespace to remain. -/
def pyJsonLoads (s : String) : Option Val :=
  match parseJson (s.length + 1) s.data with
  | some (v, rest) => if skipWs rest = [] then some v else Option.none
  | Option.none => Option.none

/-!
Parser fuel sufficient for a value: one unit per `parseJson` /
`parseItems` / `parseEntries` call along the recursion.
-/

mutual

def jfuel : Val → Nat
  | .list (x :: xs) => 1 + jfuelItems x xs
  | .dict (e :: es) => 1 + jfuelEntries e es
  | _ => 1
termination_by v => sizeOf v

def jfuelItems : Val → List Val → Nat
  | x, [] => 1 + jfuel x
  | x, y :: t => 1 + jfuel x + jfuelItems y t
termination_by x xs => 1 + sizeOf x + sizeOf xs

def jfuelEntries : String × Val → List (String × Val) → Nat
  | e, [] => 1 + jfuel e.2
  | e, f :: t => 1 + jfuel e.2 + jfuelEntries f t
termination_by e es => 1 + sizeOf e + sizeOf es
decreasing_by
  all_goals (try obtain ⟨e1, e2⟩ := e) <;> simp_all <;> omega

end

/-- A position at which a serialized number can end: the end of input or
a separator/closing character (never a digit or a dot). -/
def NumBoundary (rest : List Char) : Prop :=
  rest = [] ∨ ∃ c cs, rest = c :: cs ∧ (c = ',' ∨ c = '\n' ∨ c = ']' ∨ c = '\x7d')

def ofFracDigits (ds : List Nat) : ℚ :=
  ds.foldr (fun (d : Nat) (acc : ℚ) => ((d : ℚ) + acc) / 10) 0

/-- All characters of a parser-input prefix are whitespace. -/
def allWs (pre : List Char) : Prop := ∀ c ∈ pre, isWs c = true

/-- Round-trip property of `parseJson` at a given fuel. -/
def PJ (fuel : Nat) : Prop :=
  ∀ (v : Val) (lvl : Nat) (pre rest : List Char), allWs pre →
    jfuel v ≤ fuel → jsonCompat v = true → NumBoundary rest →
    parseJson fuel (pre ++ (jsonVal lvl v ++ rest)) = some (degrade v, rest)

/-- Round-trip property of `parseItems` at a given fuel. -/
def PI (fuel : Nat) : Prop :=
  ∀ (x : Val) (xs : List Val) (ind : Nat) (pre close rest : List Char), allWs pre →
    jfuelItems x xs ≤ fuel → (∀ y ∈ x :: xs, jsonCompat y = true) →
    NumBoundary close → skipWs close = ']' :: rest →
    parseItems fuel (pre ++ (jsonItems ind (x :: xs) ++ close)) =
      some ((x :: xs).map degrade, rest)

/-- Round-trip property of `parseEntries` at a given fuel. -/
def PE (fuel : Nat) : Prop :=
  ∀ (e : String × Val) (es : List (String × Val)) (ind : Nat)
    (pre close rest : List Char), allWs pre →
    jfuelEntries e es ≤ fuel → (∀ p ∈ e :: es, jsonCompat p.2 = true) →
    NumBoundary close → skipWs close = '\x7d' :: rest →
    parseEntries fuel (pre ++ (jsonEntries ind (e :: es) ++ close)) =
      some ((e :: es).map (fun p => (p.1, degrade p.2)), rest)

/-- A concrete exported case record: nested mappings and lists, strings,
integral and fractional numbers, booleans, null, and a timestamp. -/
def sampleCaseRecord : Val :=
  .dict
    [("timestamp", .datetime "2024-01-15 10:30:00"),
     ("patient_data", .dict
       [("age", .num 54),
        ("name", .str "Jo \"JJ\" O\x27Neil"),
        ("vitals", .dict [("temperature", .num (387/10)), ("heart_rate", .num 95)])]),
     ("ai_analysis", .dict
       [("findings", .list [.str "pneumonia", .num (1/2), .bool true, .none]),
        ("risk_score", .num (35/100))]),
     ("validated", .bool false)]

/-!
Helper lemmas shared by the claim theorems.
-/

theorem wellTyped_of_B {f : List (String × Val)} (h : wellTypedB f = true) :
    WellTypedFindings f := by
  intro nd hnd p hp
  have hx := List.all_eq_true.mp h nd hnd
  rw [hp] at hx
  rcases p with _ | b | q | s | xs | d | t <;> simp_all

theorem numericOn_of_B {ks : List String} {vit : List (String × Val)}
    (h : numericOnB ks vit = true) : NumericOn ks vit := by
  intro k hk v hv
  have hx := List.all_eq_true.mp h k hk
  rw [hv] at hx
  rcases v with _ | b | q | s | xs | d | t <;> simp_all

theorem dictGet_nil (k : String) : dictGet [] k = Option.none := rfl

theorem dictGet_cons (p : String × Val) (d : List (String × Val)) (k : String) :
    dictGet (p :: d) k = if p.1 == k then some p.2 else dictGet d k := by
  simp only [dictGet, List.find?]
  cases h : (p.1 == k) <;> simp [h]

theorem exceptBind_ok {α β : Type} (a : α) (f : α → Except PyErr β) :
    (Except.ok a >>= f) = f a := rfl

theorem exceptBind_error {α β : Type} (e : PyErr) (f : α → Except PyErr β) :
    ((Except.error e : Except PyErr α) >>= f) = .error e := rfl

theorem riskFinding_le {acc : ℚ × List String} {nd : String × Val}
    {acc' : ℚ × List String} (h : riskFinding acc nd = .ok acc') :
    acc.1 ≤ acc'.1 := by
  unfold riskFinding at h
  repeat split at h
  all_goals simp_all
  all_goals (rw [← h]; simp; nlinarith)

theorem foldlM_riskFinding_le :
    ∀ (f : List (String × Val)) (acc acc' : ℚ × List String),
      f.foldlM riskFinding acc = .ok acc' → acc.1 ≤ acc'.1 := by
  intro f
  induction f with
  | nil =>
    intro acc acc' h
    simp only [List.foldlM_nil] at h
    cases h
    exact le_rfl
  | cons nd rest ih =>
    intro acc acc' h
    rw [List.foldlM_cons] at h
    cases hstep : riskFinding acc nd with
    | error e => rw [hstep, exceptBind_error] at h; cases h
    | ok mid =>
      rw [hstep, exceptBind_ok] at h
      exact (riskFinding_le hstep).trans (ih mid acc' h)

theorem riskVitalStep_le {v? : Option Val} {cond : ℚ → Bool} {delta : ℚ}
    {factor : ℚ → String} {acc acc' : ℚ × List String} (hd : 0 ≤ delta)
    (h : riskVitalStep v? cond delta factor acc = .ok acc') :
    acc.1 ≤ acc'.1 := by
  unfold riskVitalStep at h
  repeat split at h
  all_goals simp_all
  all_goals (rw [← h]; simp; linarith)

theorem riskVitals_le {vs : List (String × Val)} {acc acc' : ℚ × List String}
    (h : riskVitals vs acc = .ok acc') : acc.1 ≤ acc'.1 := by
  unfold riskVitals riskVital at h
  cases h1 : riskVitalStep (dictGet vs "temperature") (fun q => q > 38) 0.1 feverFactor acc with
  | error e => rw [h1, exceptBind_error] at h; cases h
  | ok a1 =>
    rw [h1, exceptBind_ok] at h
    cases h2 : riskVitalStep (dictGet vs "oxygen_saturation") (fun q => q < 95) 0.2 spo2Factor a1 with
    | error e => rw [h2, exceptBind_error] at h; cases h
    | ok a2 =>
      rw [h2, exceptBind_ok] at h
      have l1 := riskVitalStep_le (by norm_num) h1
      have l2 := riskVitalStep_le (by norm_num) h2
      have l3 := riskVitalStep_le (by norm_num) h
      linarith

theorem clinicalBlock_le {c : List (String × Val)} {acc acc' : ℚ × List String}
    (h : clinicalBlock c acc = .ok acc') : acc.1 ≤ acc'.1 := by
  unfold clinicalBlock at h
  split at h
  · cases h; exact le_rfl
  · split at h
    · exact riskVitals_le h
    · cases h

/-!
Claim C2: the returned risk score is always within [0, 1].
-/

/-- C2: whenever `calculate_risk_score` returns (it can also raise, see
C3), the returned risk score lies in [0.0, 1.0]: every contributing term
is non-negative and the final value is clamped at 1.0 — even for
out-of-range probabilities such as 5.0. -/
theorem risk_score_bounded (findings clinical_data : List (String × Val))
    (s : ℚ) (factors : List String)
    (h : calculate_risk_score findings clinical_data = .ok (s, factors)) :
    0 ≤ s ∧ s ≤ 1 := by
  unfold calculate_risk_score at h
  cases hfold : findings.foldlM riskFinding ((0 : ℚ), ([] : List String)) with
  | error e => rw [hfold, exceptBind_error] at h; cases h
  | ok acc =>
    rw [hfold, exceptBind_ok] at h
    cases hblock : clinicalBlock clinical_data acc with
    | error e => rw [hblock, exceptBind_error] at h; cases h
    | ok acc2 =>
      rw [hblock, exceptBind_ok] at h
      have h0 : (0 : ℚ) ≤ acc.1 := foldlM_riskFinding_le _ _ _ hfold
      have h1 : acc.1 ≤ acc2.1 := clinicalBlock_le hblock
      have hs : s = min acc2.1 1 := by
        have := congrArg (fun r => match r with | Except.ok p => p.1 | Except.error _ => 0) h
        simpa using this.symm
      constructor
      · rw [hs]; exact le_min (by linarith) (by norm_num)
      · rw [hs]; exact min_le_right _ _

/-- C2 witness: a pneumonia probability of 5.0 contributes 1.5 before the
clamp; the returned score is exactly 1. -/
theorem risk_score_bounded_witness :
    calculate_risk_score [("pneumonia", Val.dict [("probability", Val.num 5)])] []
      = .ok (1, ["Pneumonia (500.0%)"])
    ∧ (0 ≤ (1 : ℚ) ∧ (1 : ℚ) ≤ 1) := by
  have he : calculate_risk_score [("pneumonia", Val.dict [("probability", Val.num 5)])] []
      = .ok (1, ["Pneumonia (500.0%)"]) := by with_unfolding_all rfl
  exact ⟨he, risk_score_bounded _ _ _ _ he⟩

theorem classifyStep_wt (acc : List (String × Val) × List (String × Val) × List (String × Val))
    (nd : String × Val) (h : ∀ p, probVal nd.2 = some p → ∃ q, p = Val.num q) :
    classifyStep acc nd = .ok
      (acc.1 ++ (if highBucketP nd then [nd] else []),
       acc.2.1 ++ (if moderateBucketP nd then [nd] else []),
       acc.2.2 ++ (if lowBucketP nd then [nd] else [])) := by
  obtain ⟨n, d⟩ := nd
  rcases d with _ | b | q | s | xs | e | t
  · simp [classifyStep, highBucketP, moderateBucketP, lowBucketP, probNum, probVal]
  · simp [classifyStep, highBucketP, moderateBucketP, lowBucketP, probNum, probVal]
  · simp [classifyStep, highBucketP, moderateBucketP, lowBucketP, probNum, probVal]
  · simp [classifyStep, highBucketP, moderateBucketP, lowBucketP, probNum, probVal]
  · simp [classifyStep, highBucketP, moderateBucketP, lowBucketP, probNum, probVal]
  · cases hg : dictGet e "probability" with
    | none => simp [classifyStep, highBucketP, moderateBucketP, lowBucketP, probNum, probVal, hg]
    | some p =>
      obtain ⟨q, rfl⟩ := h p (by simp [probVal, hg])
      simp only [classifyStep, highBucketP, moderateBucketP, lowBucketP, probNum, probVal,
        hg, numView, decide_eq_true_eq]
      by_cases h7 : q ≥ 0.7
      · rw [if_pos h7, if_pos h7, if_neg (by rintro ⟨-, hlt⟩; linarith),
          if_neg (by intro hlt; linarith)]
        simp
      · by_cases h3 : q ≥ 0.3
        · rw [if_neg h7, if_pos h3, if_neg h7,
            if_pos ⟨h3, by linarith [lt_of_not_ge h7]⟩,
            if_neg (by intro hlt; linarith)]
          simp
        · rw [if_neg h7, if_neg h3, if_neg h7,
            if_neg (by rintro ⟨hge, -⟩; exact h3 hge),
            if_pos (by linarith [lt_of_not_ge h3])]
          simp
  · simp [classifyStep, highBucketP, moderateBucketP, lowBucketP, probNum, probVal]

theorem foldlM_classifyStep_eq (findings : List (String × Val))
    (h : WellTypedFindings findings) :
    ∀ acc, findings.foldlM classifyStep acc
      = .ok (acc.1 ++ findings.filter highBucketP,
             acc.2.1 ++ findings.filter moderateBucketP,
             acc.2.2 ++ findings.filter lowBucketP) := by
  induction findings with
  | nil => intro acc; simp; rfl
  | cons nd rest ih =>
    intro acc
    rw [List.foldlM_cons,
      classifyStep_wt acc nd (fun p hp => h nd (List.mem_cons_self _ _) p hp),
      exceptBind_ok, ih (fun x hx p hp => h x (List.mem_cons_of_mem _ hx) p hp)]
    simp only [List.filter_cons]
    cases hh : highBucketP nd <;> cases hm : moderateBucketP nd <;>
      cases hl : lowBucketP nd <;> simp

theorem display_eq_filters (findings : List (String × Val))
    (h : WellTypedFindings findings) :
    display_findings_summary findings
      = .ok (findings.filter highBucketP,
             findings.filter moderateBucketP,
             findings.filter lowBucketP) := by
  unfold display_findings_summary
  rw [foldlM_classifyStep_eq findings h]
  simp

/-!
Claim C4: the Finding Classifier's buckets and ordering.
-/

/-- C4: on a findings mapping whose probabilities are numeric, the
classifier returns exactly the three sublists of findings with a numeric
probability satisfying `p ≥ 0.7` (High), `0.3 ≤ p < 0.7` (Moderate) and
`p < 0.3` (Low): each classified finding lands in exactly one bucket, and
each bucket keeps the insertion order of the input (a `filter` of it). -/
theorem classifier_thresholds (findings : List (String × Val))
    (h : WellTypedFindings findings) :
    display_findings_summary findings
      = .ok (findings.filter highBucketP,
             findings.filter moderateBucketP,
             findings.filter lowBucketP) :=
  display_eq_filters findings h

/-- C4 witness: boundary probabilities 0.7, 0.3, 0.29 and 1 land in
High/Moderate/Low/High, and High keeps insertion order. -/
theorem classifier_thresholds_witness :
    wellTypedB
      [("a", Val.dict [("probability", Val.num 0.7)]),
       ("b", Val.dict [("probability", Val.num 0.3)]),
       ("c", Val.dict [("probability", Val.num 0.29)]),
       ("d", Val.dict [("probability", Val.num 1)])] = true
    ∧ display_findings_summary
        [("a", Val.dict [("probability", Val.num 0.7)]),
         ("b", Val.dict [("probability", Val.num 0.3)]),
         ("c", Val.dict [("probability", Val.num 0.29)]),
         ("d", Val.dict [("probability", Val.num 1)])]
      = .ok ([("a", Val.dict [("probability", Val.num 0.7)]),
              ("d", Val.dict [("probability", Val.num 1)])],
             [("b", Val.dict [("probability", Val.num 0.3)])],
             [("c", Val.dict [("probability", Val.num 0.29)])]) := by
  constructor
  · with_unfolding_all rfl
  · rw [classifier_thresholds _ (wellTyped_of_B (by with_unfolding_all rfl))]
    with_unfolding_all rfl

/-!
Claim C5: findings lacking a numeric probability.
-/

/-- C5 (amended): on a findings mapping whose present probabilities are
numeric, classification completes without raising, and a finding whose
detail object lacks a probability entry (or is not a detail object at all)
appears in none of the three buckets; the original claim's further
assertion that a finding with a non-numeric probability is also dropped is
refuted by `classifier_nonnumeric_probability_counterexample`. -/
theorem classifier_missing_probability_dropped (findings : List (String × Val))
    (h : WellTypedFindings findings) :
    ∃ buckets, display_findings_summary findings = .ok buckets
      ∧ ∀ nd ∈ findings, probNum nd.2 = Option.none →
          nd ∉ buckets.1 ∧ nd ∉ buckets.2.1 ∧ nd ∉ buckets.2.2 := by
  refine ⟨_, display_eq_filters findings h, ?_⟩
  intro nd _ hnone
  refine ⟨?_, ?_, ?_⟩ <;> intro hmem <;>
    · have hx := (List.mem_filter.mp hmem).2
      simp [highBucketP, moderateBucketP, lowBucketP, hnone] at hx

/-- C5 witness: the claim's own example — `fracture` has no probability
entry, is dropped from all buckets, and classification completes. -/
theorem classifier_missing_probability_dropped_witness :
    wellTypedB [("nodule", Val.dict [("probability", Val.num 0.5)]), ("fracture", Val.dict [])]
      = true
    ∧ display_findings_summary
        [("nodule", Val.dict [("probability", Val.num 0.5)]), ("fracture", Val.dict [])]
      = .ok ([], [("nodule", Val.dict [("probability", Val.num 0.5)])], [])
    ∧ (∃ buckets,
        display_findings_summary
          [("nodule", Val.dict [("probability", Val.num 0.5)]), ("fracture", Val.dict [])]
          = .ok buckets
        ∧ ∀ nd ∈ [("nodule", Val.dict [("probability", Val.num 0.5)]), ("fracture", Val.dict [])],
            probNum nd.2 = Option.none →
              nd ∉ buckets.1 ∧ nd ∉ buckets.2.1 ∧ nd ∉ buckets.2.2) := by
  refine ⟨by with_unfolding_all rfl, by with_unfolding_all rfl, ?_⟩
  exact classifier_missing_probability_dropped _ (wellTyped_of_B (by with_unfolding_all rfl))

theorem vitalCheck_num_eq (vit : List (String × Val)) (k : String)
    (w : ℚ → List String) (i : String)
    (h : ∀ v, dictGet vit k = some v → ∃ q, v = Val.num q) :
    vitalCheck vit k w i
      = .ok (match vitalNum vit k with
             | some q => if q = 0 then [] else w q
             | Option.none => []) := by
  unfold vitalCheck vitalNum
  cases hg : dictGet vit k with
  | none => simp [vitalCheckStep]
  | some v =>
    obtain ⟨q, rfl⟩ := h v hg
    by_cases hq : q = 0
    · subst hq; simp [vitalCheckStep, pyTruthy]
    · simp [vitalCheckStep, pyTruthy, hq, pyFloat]

/-!
Claim C6: the Vital-Sign Validator's warnings.
-/

/-- C6 (amended): for every vitals mapping whose recognized values are
numeric, `validate_vital_signs` returns exactly one warning per violated
bound (temperature above 38 or below 36, heart rate above 100 or below
60, systolic blood pressure above 140 or below 90, oxygen saturation
below 95), in parameter order, and no warning for an in-range vital —
with the amendment that a vital whose value is 0 is treated as absent
(see `validator_zero_temperature_counterexample`). -/
theorem validator_warnings (vit : List (String × Val))
    (h : NumericOn validatorKeys vit) :
    validate_vital_signs vit = .ok (specVitalWarnings vit) := by
  have ht := vitalCheck_num_eq vit "temperature" tempWarn "Invalid temperature value"
    (fun v hv => h "temperature" (by simp [validatorKeys]) v hv)
  have hh := vitalCheck_num_eq vit "heart_rate" hrWarn "Invalid heart rate value"
    (fun v hv => h "heart_rate" (by simp [validatorKeys]) v hv)
  have hs := vitalCheck_num_eq vit "systolic_bp" sbpWarn "Invalid systolic blood pressure value"
    (fun v hv => h "systolic_bp" (by simp [validatorKeys]) v hv)
  have ho := vitalCheck_num_eq vit "oxygen_saturation" spo2Warn "Invalid oxygen saturation value"
    (fun v hv => h "oxygen_saturation" (by simp [validatorKeys]) v hv)
  unfold validate_vital_signs
  rw [ht, exceptBind_ok, hh, exceptBind_ok, hs, exceptBind_ok, ho, exceptBind_ok]
  unfold specVitalWarnings
  rfl

/-- C6 witness: one violating value per parameter (and an unrecognized
respiratory-rate entry that is ignored) yields exactly the four expected
warnings in parameter order. -/
theorem validator_warnings_witness :
    numericOnB validatorKeys
      [("temperature", Val.num 39.2), ("heart_rate", Val.num 55),
       ("systolic_bp", Val.num 150), ("oxygen_saturation", Val.num 90),
       ("respiratory_rate", Val.num 99)] = true
    ∧ validate_vital_signs
        [("temperature", Val.num 39.2), ("heart_rate", Val.num 55),
         ("systolic_bp", Val.num 150), ("oxygen_saturation", Val.num 90),
         ("respiratory_rate", Val.num 99)]
      = .ok (specVitalWarnings
          [("temperature", Val.num 39.2), ("heart_rate", Val.num 55),
           ("systolic_bp", Val.num 150), ("oxygen_saturation", Val.num 90),
           ("respiratory_rate", Val.num 99)])
    ∧ specVitalWarnings
        [("temperature", Val.num 39.2), ("heart_rate", Val.num 55),
         ("systolic_bp", Val.num 150), ("oxygen_saturation", Val.num 90),
         ("respiratory_rate", Val.num 99)]
      = ["High temperature: 39.2°C (normal: 36-37.5°C)",
         "Bradycardia: 55.0 bpm (normal: 60-100 bpm)",
         "High systolic BP: 150.0 mmHg (normal: <120 mmHg)",
         "Low oxygen saturation: 90.0% (normal: >95%)"] := by
  refine ⟨by with_unfolding_all rfl, ?_, by with_unfolding_all rfl⟩
  exact validator_warnings _ (numericOn_of_B (by with_unfolding_all rfl))

theorem riskFinding_wt (acc : ℚ × List String) (nd : String × Val)
    (h : ∀ p, probVal nd.2 = some p → ∃ q, p = Val.num q) :
    riskFinding acc nd
      = .ok (acc.1 + ((specFindingTerms [nd]).map Prod.fst).sum,
             acc.2 ++ (specFindingTerms [nd]).map Prod.snd) := by
  obtain ⟨n, d⟩ := nd
  rcases d with _ | b | q | s | xs | e | t
  · simp [riskFinding, specFindingTerms, probNum, probVal]
  · simp [riskFinding, specFindingTerms, probNum, probVal]
  · simp [riskFinding, specFindingTerms, probNum, probVal]
  · simp [riskFinding, specFindingTerms, probNum, probVal]
  · simp [riskFinding, specFindingTerms, probNum, probVal]
  · cases hg : dictGet e "probability" with
    | none => simp [riskFinding, specFindingTerms, probNum, probVal, hg]
    | some p =>
      obtain ⟨q, rfl⟩ := h p (by simp [probVal, hg])
      simp only [riskFinding, specFindingTerms, probNum, probVal, hg, numView,
        List.filterMap_cons, List.filterMap_nil, pyTruthy]
      by_cases hq : q = 0
      · subst hq
        have hno : ¬(n ∈ urgentNames ∧ (0.5 : ℚ) < 0) := by
          rintro ⟨-, hgt⟩; norm_num at hgt
        simp [hno]
      · by_cases hm : n ∈ urgentNames
        · by_cases h5 : q > 0.5
          · simp [hq, hm, h5]
          · simp [hq, hm, h5]
        · simp [hq, hm]
  · simp [riskFinding, specFindingTerms, probNum, probVal]

theorem specFindingTerms_cons (nd : String × Val) (rest : List (String × Val)) :
    specFindingTerms (nd :: rest) = specFindingTerms [nd] ++ specFindingTerms rest := by
  simp only [specFindingTerms, List.filterMap_cons, List.filterMap_nil]
  cases hf : (match probNum nd.2 with
    | some q =>
      if nd.1 ∈ urgentNames ∧ q > 0.5 then
        some (q * 0.3, titleName nd.1 ++ " (" ++ formatPercent1 q ++ ")")
      else Option.none
    | Option.none => Option.none : Option (ℚ × String)) <;> simp

theorem foldlM_riskFinding_eq (findings : List (String × Val))
    (h : WellTypedFindings findings) :
    ∀ acc, findings.foldlM riskFinding acc
      = .ok (acc.1 + ((specFindingTerms findings).map Prod.fst).sum,
             acc.2 ++ (specFindingTerms findings).map Prod.snd) := by
  induction findings with
  | nil => intro acc; simp [specFindingTerms]; rfl
  | cons nd rest ih =>
    intro acc
    rw [List.foldlM_cons,
      riskFinding_wt acc nd (fun p hp => h nd (List.mem_cons_self _ _) p hp),
      exceptBind_ok, ih (fun x hx p hp => h x (List.mem_cons_of_mem _ hx) p hp),
      specFindingTerms_cons nd rest]
    simp [add_assoc]

theorem riskVital_num_eq (vit : List (String × Val)) (k : String)
    (cond : ℚ → Bool) (delta : ℚ) (factor : ℚ → String) (acc : ℚ × List String)
    (h : ∀ v, dictGet vit k = some v → ∃ q, v = Val.num q) :
    riskVital vit k cond delta factor acc
      = .ok (acc.1 + ((vitalTermBlock (vitalNum vit k) cond delta factor).map Prod.fst).sum,
             acc.2 ++ (vitalTermBlock (vitalNum vit k) cond delta factor).map Prod.snd) := by
  unfold riskVital vitalNum vitalTermBlock
  cases hg : dictGet vit k with
  | none => simp [riskVitalStep]
  | some v =>
    obtain ⟨q, rfl⟩ := h v hg
    by_cases hq : q = 0
    · subst hq
      simp [riskVitalStep, pyTruthy]
    · simp only [riskVitalStep, pyTruthy, pyFloat, ne_eq, hq, not_false_eq_true,
        decide_eq_true_eq, if_true, true_and]
      cases hc : cond q <;> simp [hc, hq]

theorem riskVitals_eq (vit : List (String × Val)) (acc : ℚ × List String)
    (h : NumericOn riskVitalKeys vit) :
    riskVitals vit acc
      = .ok (acc.1 + ((specVitalTerms vit).map Prod.fst).sum,
             acc.2 ++ (specVitalTerms vit).map Prod.snd) := by
  unfold riskVitals
  rw [riskVital_num_eq vit "temperature" _ 0.1 feverFactor acc
      (fun v hv => h "temperature" (by simp [riskVitalKeys]) v hv),
    exceptBind_ok,
    riskVital_num_eq vit "oxygen_saturation" _ 0.2 spo2Factor _
      (fun v hv => h "oxygen_saturation" (by simp [riskVitalKeys]) v hv),
    exceptBind_ok,
    riskVital_num_eq vit "heart_rate" _ 0.1 tachyFactor _
      (fun v hv => h "heart_rate" (by simp [riskVitalKeys]) v hv)]
  simp [specVitalTerms, add_assoc]

/-!
Claim C1: the Risk Aggregator's formula.
-/

/-- C1 (amended): for every well-typed findings mapping and clinical-data
mapping with a numeric vitals sub-mapping, `calculate_risk_score` returns
the clamped sum of `probability * 0.3` over urgent findings with
probability above 0.5, plus 0.1 / 0.2 / 0.1 for fever / low oxygen
saturation / tachycardia, and the corresponding factor strings in
rule-evaluation order (image findings in insertion order, then
temperature, oxygen saturation, heart rate) — with the amendment that a
vital whose value is 0 is treated as absent (see
`risk_zero_spo2_counterexample`). -/
theorem risk_score_formula (findings clinical vit : List (String × Val))
    (hv : dictGet clinical "vitals" = some (Val.dict vit))
    (hf : WellTypedFindings findings)
    (hn : NumericOn riskVitalKeys vit) :
    calculate_risk_score findings clinical
      = .ok (min (specRiskSum findings vit) 1, specRiskFactors findings vit) := by
  have hne : clinical.isEmpty = false := by
    cases clinical with
    | nil => simp [dictGet] at hv
    | cons p rest => rfl
  unfold calculate_risk_score clinicalBlock
  rw [foldlM_riskFinding_eq findings hf, exceptBind_ok, hne, hv]
  simp only [Bool.false_eq_true, if_false, Option.getD_some]
  rw [riskVitals_eq vit _ hn]
  simp [specRiskSum, specRiskFactors, exceptBind_ok, add_assoc]

/-- C1 witness: pneumonia at 0.85 (urgent, counted), a non-urgent nodule
at 0.99 (ignored), fever at 39.2 and an in-range oxygen saturation give
risk 0.355 and the factors in rule order. -/
theorem risk_score_formula_witness :
    dictGet [("vitals", Val.dict
        [("temperature", Val.num 39.2), ("oxygen_saturation", Val.num 96)])] "vitals"
      = some (Val.dict [("temperature", Val.num 39.2), ("oxygen_saturation", Val.num 96)])
    ∧ calculate_risk_score
        [("pneumonia", Val.dict [("probability", Val.num 0.85)]),
         ("nodule", Val.dict [("probability", Val.num 0.99)])]
        [("vitals", Val.dict
          [("temperature", Val.num 39.2), ("oxygen_saturation", Val.num 96)])]
      = .ok (min (specRiskSum
            [("pneumonia", Val.dict [("probability", Val.num 0.85)]),
             ("nodule", Val.dict [("probability", Val.num 0.99)])]
            [("temperature", Val.num 39.2), ("oxygen_saturation", Val.num 96)]) 1,
          specRiskFactors
            [("pneumonia", Val.dict [("probability", Val.num 0.85)]),
             ("nodule", Val.dict [("probability", Val.num 0.99)])]
            [("temperature", Val.num 39.2), ("oxygen_saturation", Val.num 96)])
    ∧ calculate_risk_score
        [("pneumonia", Val.dict [("probability", Val.num 0.85)]),
         ("nodule", Val.dict [("probability", Val.num 0.99)])]
        [("vitals", Val.dict
          [("temperature", Val.num 39.2), ("oxygen_saturation", Val.num 96)])]
      = .ok (0.355, ["Pneumonia (85.0%)", "Fever (39.2°C)"]) := by
  refine ⟨by with_unfolding_all rfl, ?_, by with_unfolding_all rfl⟩
  exact risk_score_formula _ _ _ (by with_unfolding_all rfl)
    (wellTyped_of_B (by with_unfolding_all rfl))
    (numericOn_of_B (by with_unfolding_all rfl))

theorem dictGet_eq_none_of_not_mem {d : List (String × Val)} {k : String}
    (h : k ∉ d.map Prod.fst) : dictGet d k = Option.none := by
  induction d with
  | nil => rfl
  | cons p rest ih =>
    simp only [List.map_cons, List.mem_cons] at h
    push_neg at h
    rw [dictGet_cons, if_neg (fun hbk => h.1 ((eq_of_beq hbk).symm))]
    exact ih h.2

theorem truthyEntries_keys_sub (d : List (String × Val)) :
    (truthyEntries d).map Prod.fst ⊆ d.map Prod.fst := by
  intro k hk
  obtain ⟨p, hp, rfl⟩ := List.mem_map.mp hk
  exact List.mem_map_of_mem _ (List.mem_of_mem_filter hp)

theorem dictGet_truthyEntries {d : List (String × Val)} (h : nodupKeys d) (k : String) :
    dictGet (truthyEntries d) k
      = match dictGet d k with
        | some v => if pyTruthy v then some v else Option.none
        | Option.none => Option.none := by
  induction d with
  | nil => rfl
  | cons p rest ih =>
    have hrest : nodupKeys rest := (List.nodup_cons.mp h).2
    have hp : p.1 ∉ rest.map Prod.fst := (List.nodup_cons.mp h).1
    cases hbk : (p.1 == k) with
    | true =>
      have hkey : p.1 = k := eq_of_beq hbk
      cases hpt : pyTruthy p.2 with
      | false =>
        have h1 : truthyEntries (p :: rest) = truthyEntries rest := by
          simp [truthyEntries, List.filter_cons, hpt]
        have h2 : dictGet (truthyEntries rest) k = Option.none :=
          dictGet_eq_none_of_not_mem
            (fun hm => hp (truthyEntries_keys_sub rest (hkey ▸ hm)))
        rw [h1, h2, dictGet_cons, if_pos hbk]
        simp [hpt]
      | true =>
        have h1 : truthyEntries (p :: rest) = p :: truthyEntries rest := by
          simp [truthyEntries, List.filter_cons, hpt]
        rw [h1, dictGet_cons, if_pos hbk, dictGet_cons, if_pos hbk]
        simp [hpt]
    | false =>
      have hstep : dictGet (truthyEntries (p :: rest)) k = dictGet (truthyEntries rest) k := by
        cases hpt : pyTruthy p.2 with
        | false => simp [truthyEntries, List.filter_cons, hpt]
        | true =>
          simp only [truthyEntries, List.filter_cons, hpt, if_pos]
          rw [dictGet_cons, if_neg (by simp [hbk])]
      rw [hstep, dictGet_cons, if_neg (by simp [hbk]), ih hrest]

theorem vitalCheck_truthyEntries {vit : List (String × Val)} (h : nodupKeys vit)
    (k : String) (w : ℚ → List String) (i : String) :
    vitalCheck (truthyEntries vit) k w i = vitalCheck vit k w i := by
  unfold vitalCheck
  rw [dictGet_truthyEntries h k]
  cases hg : dictGet vit k with
  | none => rfl
  | some v => cases hpt : pyTruthy v <;> simp [vitalCheckStep, hpt]

theorem riskVital_truthyEntries {vit : List (String × Val)} (h : nodupKeys vit)
    (k : String) (cond : ℚ → Bool) (delta : ℚ) (factor : ℚ → String)
    (acc : ℚ × List String) :
    riskVital (truthyEntries vit) k cond delta factor acc
      = riskVital vit k cond delta factor acc := by
  unfold riskVital
  rw [dictGet_truthyEntries h k]
  cases hg : dictGet vit k with
  | none => rfl
  | some v => cases hpt : pyTruthy v <;> simp [riskVitalStep, hpt]

theorem riskFinding_zero_prob (acc : ℚ × List String) (name : String)
    (rest : List (String × Val)) :
    riskFinding acc (name, Val.dict (("probability", Val.num 0) :: rest)) = .ok acc := by
  have hg : dictGet (("probability", Val.num 0) :: rest) "probability"
      = some (Val.num 0) := by
    rw [dictGet_cons]; simp
  simp [riskFinding, hg, pyTruthy]

/-!
Claim C7: falsy values (0, empty string, None) are treated as absent.
-/

/-- C7: dropping every falsy-valued entry from a vitals mapping changes
neither the validator's warnings nor the risk computation (in particular
a temperature or oxygen saturation of 0 yields no warning and no risk
contribution even though 0 violates a low bound), and a finding whose
probability is exactly 0 is skipped by `calculate_risk_score` as if it
had no probability entry. -/
theorem falsy_values_treated_as_absent (vit : List (String × Val)) (h : nodupKeys vit) :
    (validate_vital_signs (truthyEntries vit) = validate_vital_signs vit)
    ∧ (∀ findings, calculate_risk_score findings [("vitals", Val.dict (truthyEntries vit))]
        = calculate_risk_score findings [("vitals", Val.dict vit)])
    ∧ (∀ (findings clinical : List (String × Val)) (name : String)
        (rest : List (String × Val)),
        calculate_risk_score
            ((name, Val.dict (("probability", Val.num 0) :: rest)) :: findings) clinical
          = calculate_risk_score findings clinical) := by
  refine ⟨?_, ?_, ?_⟩
  · unfold validate_vital_signs
    rw [vitalCheck_truthyEntries h, vitalCheck_truthyEntries h,
      vitalCheck_truthyEntries h, vitalCheck_truthyEntries h]
  · intro findings
    unfold calculate_risk_score
    cases hfold : findings.foldlM riskFinding ((0 : ℚ), ([] : List String)) with
    | error e => rfl
    | ok acc =>
      rw [exceptBind_ok, exceptBind_ok]
      have hb : clinicalBlock [("vitals", Val.dict (truthyEntries vit))] acc
          = clinicalBlock [("vitals", Val.dict vit)] acc := by
        unfold clinicalBlock riskVitals
        have hg1 : dictGet [("vitals", Val.dict (truthyEntries vit))] "vitals"
            = some (Val.dict (truthyEntries vit)) := by rw [dictGet_cons]; simp
        have hg2 : dictGet [("vitals", Val.dict vit)] "vitals"
            = some (Val.dict vit) := by rw [dictGet_cons]; simp
        rw [hg1, hg2]
        simp only [List.isEmpty_cons, Option.getD_some, Bool.false_eq_true, if_false]
        simp only [riskVital_truthyEntries h]
      rw [hb]
  · intro findings clinical name rest
    unfold calculate_risk_score
    rw [List.foldlM_cons, riskFinding_zero_prob, exceptBind_ok]

/-- C7 witness: vitals `{temperature: 0, oxygen_saturation: "", heart_rate:
None}` warn about nothing and contribute nothing, and a zero-probability
pneumonia finding is skipped. -/
theorem falsy_values_treated_as_absent_witness :
    nodupKeys [("temperature", Val.num 0), ("oxygen_saturation", Val.str ""),
      ("heart_rate", Val.none)]
    ∧ truthyEntries [("temperature", Val.num 0), ("oxygen_saturation", Val.str ""),
        ("heart_rate", Val.none)] = []
    ∧ validate_vital_signs [("temperature", Val.num 0), ("oxygen_saturation", Val.str ""),
        ("heart_rate", Val.none)] = .ok []
    ∧ calculate_risk_score [("pneumonia", Val.dict [("probability", Val.num 0)])]
        [("vitals", Val.dict [("temperature", Val.num 0),
          ("oxygen_saturation", Val.str ""), ("heart_rate", Val.none)])] = .ok (0, [])
    ∧ (validate_vital_signs (truthyEntries [("temperature", Val.num 0),
          ("oxygen_saturation", Val.str ""), ("heart_rate", Val.none)])
        = validate_vital_signs [("temperature", Val.num 0),
            ("oxygen_saturation", Val.str ""), ("heart_rate", Val.none)]) := by
  have h : nodupKeys [("temperature", Val.num 0), ("oxygen_saturation", Val.str ""),
      ("heart_rate", Val.none)] := by
    unfold nodupKeys
    with_unfolding_all decide
  refine ⟨h, by with_unfolding_all rfl, by with_unfolding_all rfl,
    by with_unfolding_all rfl, ?_⟩
  exact (falsy_values_treated_as_absent _ h).1

theorem riskFinding_not_urgent (acc : ℚ × List String) (nd : String × Val)
    (h : nd.1 ∉ urgentNames) : riskFinding acc nd = .ok acc := by
  obtain ⟨n, d⟩ := nd
  rcases d with _ | b | q | s | xs | e | t
  · rfl
  · rfl
  · rfl
  · rfl
  · rfl
  · cases hg : dictGet e "probability" with
    | none => simp [riskFinding, hg]
    | some p => simp at h; simp [riskFinding, hg, h]
  · rfl

theorem foldlM_riskFinding_urgentProj (f : List (String × Val)) :
    ∀ acc, f.foldlM riskFinding acc = (urgentProj f).foldlM riskFinding acc := by
  induction f with
  | nil => intro acc; rfl
  | cons nd rest ih =>
    intro acc
    by_cases hm : nd.1 ∈ urgentNames
    · have hproj : urgentProj (nd :: rest) = nd :: urgentProj rest := by
        simp [urgentProj, List.filter_cons, hm]
      rw [hproj, List.foldlM_cons, List.foldlM_cons]
      cases hstep : riskFinding acc nd with
      | error e => rfl
      | ok mid => rw [exceptBind_ok, exceptBind_ok, ih mid]
    · have hproj : urgentProj (nd :: rest) = urgentProj rest := by
        simp [urgentProj, List.filter_cons, hm]
      rw [hproj, List.foldlM_cons, riskFinding_not_urgent acc nd hm, exceptBind_ok, ih acc]

theorem clinicalBlock_eq_view (c : List (String × Val)) (acc : ℚ × List String) :
    clinicalBlock c acc = viewContribution (vitalsView c) acc := by
  unfold clinicalBlock vitalsView
  cases c with
  | nil =>
    simp only [List.isEmpty_nil, if_true, dictGet_nil, Option.getD_none]
    rfl
  | cons p rest =>
    simp only [List.isEmpty_cons, Bool.false_eq_true, if_false]
    cases hval : (dictGet (p :: rest) "vitals").getD (Val.dict []) <;> rfl

/-!
Claim C10: the risk score reads only the urgent findings and three vitals.
-/

/-- C10: `calculate_risk_score` depends only on the findings entries named
pneumonia, pneumothorax or pulmonary_edema (in order) and on the
temperature, oxygen-saturation and heart-rate entries of the vitals
sub-mapping: two inputs that agree on those projections produce identical
results, so symptoms, lab results, other vitals and other findings never
influence the outcome. -/
theorem risk_noninterference (f1 f2 c1 c2 : List (String × Val))
    (hf : urgentProj f1 = urgentProj f2) (hc : vitalsView c1 = vitalsView c2) :
    calculate_risk_score f1 c1 = calculate_risk_score f2 c2 := by
  unfold calculate_risk_score
  rw [foldlM_riskFinding_urgentProj f1, foldlM_riskFinding_urgentProj f2, hf]
  cases hfold : (urgentProj f2).foldlM riskFinding ((0 : ℚ), ([] : List String)) with
  | error e => rfl
  | ok acc =>
    rw [exceptBind_ok, exceptBind_ok, clinicalBlock_eq_view c1,
      clinicalBlock_eq_view c2, hc]

/-- C10 witness: two inputs differing in non-urgent findings, symptoms,
lab results and systolic blood pressure, but agreeing on the urgent
finding and the three read vitals, give identical results. -/
theorem risk_noninterference_witness :
    urgentProj [("x", Val.str "noise"), ("pneumonia", Val.dict [("probability", Val.num 0.9)])]
      = urgentProj [("pneumonia", Val.dict [("probability", Val.num 0.9)]),
          ("nodule", Val.dict [("probability", Val.num 0.99)])]
    ∧ vitalsView [("vitals", Val.dict [("temperature", Val.num 39),
          ("systolic_bp", Val.num 220)]), ("symptoms", Val.list [Val.str "cough"])]
      = vitalsView [("vitals", Val.dict [("temperature", Val.num 39)]),
          ("lab_results", Val.dict [("wbc", Val.num 20)])]
    ∧ calculate_risk_score
        [("x", Val.str "noise"), ("pneumonia", Val.dict [("probability", Val.num 0.9)])]
        [("vitals", Val.dict [("temperature", Val.num 39), ("systolic_bp", Val.num 220)]),
         ("symptoms", Val.list [Val.str "cough"])]
      = calculate_risk_score
          [("pneumonia", Val.dict [("probability", Val.num 0.9)]),
           ("nodule", Val.dict [("probability", Val.num 0.99)])]
          [("vitals", Val.dict [("temperature", Val.num 39)]),
           ("lab_results", Val.dict [("wbc", Val.num 20)])]
    ∧ calculate_risk_score
        [("x", Val.str "noise"), ("pneumonia", Val.dict [("probability", Val.num 0.9)])]
        [("vitals", Val.dict [("temperature", Val.num 39), ("systolic_bp", Val.num 220)]),
         ("symptoms", Val.list [Val.str "cough"])]
      = .ok (0.37, ["Pneumonia (90.0%)", "Fever (39.0°C)"]) := by
  refine ⟨by with_unfolding_all rfl, by with_unfolding_all rfl, ?_,
    by with_unfolding_all rfl⟩
  exact risk_noninterference _ _ _ _ (by with_unfolding_all rfl) (by with_unfolding_all rfl)

/-!
Claim C8: the Confidence/Severity Presenter's qualitative bands.
-/

/-- C8: for every scalar score, the Presenter assigns the band "High"
exactly when the score is at least 0.8, "Moderate" exactly on
[0.6, 0.8), "Low" exactly on [0.4, 0.6), and "Very Low" exactly below
0.4; and the 0.8/0.6/0.4 breakpoints are distinct from the Finding
Classifier's 0.7/0.3 thresholds: a probability of 0.7 lands in the
classifier's High bucket while the Presenter bands 0.7 as "Moderate". -/
theorem confidence_bands (s : ℚ) :
    ((display_confidence_score s).2 = "High" ↔ 0.8 ≤ s)
    ∧ ((display_confidence_score s).2 = "Moderate" ↔ 0.6 ≤ s ∧ s < 0.8)
    ∧ ((display_confidence_score s).2 = "Low" ↔ 0.4 ≤ s ∧ s < 0.6)
    ∧ ((display_confidence_score s).2 = "Very Low" ↔ s < 0.4)
    ∧ display_findings_summary [("finding", Val.dict [("probability", Val.num 0.7)])]
        = .ok ([("finding", Val.dict [("probability", Val.num 0.7)])], [], [])
    ∧ (display_confidence_score 0.7).2 = "Moderate" := by
  have hchar : (display_confidence_score s).2
      = if s ≥ 0.8 then "High" else if s ≥ 0.6 then "Moderate"
        else if s ≥ 0.4 then "Low" else "Very Low" := by
    unfold display_confidence_score
    split_ifs <;> rfl
  refine ⟨?_, ?_, ?_, ?_, by with_unfolding_all rfl, by with_unfolding_all rfl⟩ <;>
      rw [hchar] <;> split_ifs with h1 h2 h3 <;>
      simp only [ge_iff_le, not_le] at * <;>
      constructor <;>
      intro h <;>
      first
        | rfl
        | (exact absurd h (by decide))
        | (constructor <;> linarith)
        | linarith
        | (exfalso; obtain ⟨ha, hb⟩ := h; linarith)
        | exact h.1
        | exact h.2

/-!
Claim C3: behaviour on malformed numeric fields (non-numeric strings).
-/

/-- C3 (code bug): a non-numeric string probability on a clinically-urgent
finding makes `calculate_risk_score` raise `TypeError` at `prob > 0.5`
instead of skipping the rule, while the same function does skip malformed
vitals values and `validate_vital_signs` reports them as an invalid-value
warning without raising. -/
theorem risk_malformed_probability_raises :
    calculate_risk_score [("pneumonia", Val.dict [("probability", Val.str "high")])] []
      = .error .typeError
    ∧ validate_vital_signs [("heart_rate", Val.str "abnormal")]
        = .ok ["Invalid heart rate value"]
    ∧ calculate_risk_score [] [("vitals", Val.dict [("temperature", Val.str "abnormal")])]
        = .ok (0, []) := by
  refine ⟨by with_unfolding_all rfl, by with_unfolding_all rfl, by with_unfolding_all rfl⟩

/-!
Counterexamples: zero-valued vitals are gated out by Python truthiness.
-/

/-- C1 counterexample: with findings `{}` and vitals
`{"oxygen_saturation": 0}` the source returns risk 0 with no factors,
while the claim's formula demands 0.2 (0 is present and below 95). -/
theorem risk_zero_spo2_counterexample :
    calculate_risk_score [] [("vitals", Val.dict [("oxygen_saturation", Val.num 0)])]
      = .ok (0, [])
    ∧ specRiskSumClaim [] [("oxygen_saturation", Val.num 0)] = 0.2
    ∧ (0 : ℚ) ≠ 0.2 := by
  refine ⟨by with_unfolding_all rfl, by with_unfolding_all rfl, by norm_num⟩

/-- C6 counterexample: a temperature of 0 violates the below-36 bound, so
the claim demands one warning, but the source emits none (0 is falsy). -/
theorem validator_zero_temperature_counterexample :
    validate_vital_signs [("temperature", Val.num 0)] = .ok []
    ∧ specVitalWarningsClaim [("temperature", Val.num 0)]
        = ["Low temperature: 0.0°C (normal: 36-37.5°C)"]
    ∧ ([] : List String) ≠ ["Low temperature: 0.0°C (normal: 36-37.5°C)"] := by
  refine ⟨by with_unfolding_all rfl, by with_unfolding_all rfl, by simp⟩

/-- C5 counterexample: a finding with a non-numeric probability makes the
classifier raise `TypeError` at `prob >= 0.7` instead of being dropped. -/
theorem classifier_nonnumeric_probability_counterexample :
    display_findings_summary
      [("nodule", Val.dict [("probability", Val.num 0.5)]),
       ("fracture", Val.dict [("probability", Val.str "indeterminate")])]
      = .error .typeError := by
  with_unfolding_all rfl

/-!
Round-trip development for the export formatter (claim C9).
-/

/-!
Round-trip lemmas: characters and whitespace.
-/

theorem char_toNat_ofNat_valid {n : Nat} (h : n.isValidChar) :
    (Char.ofNat n).toNat = n := by
  unfold Char.ofNat
  rw [dif_pos h]
  simp [Char.ofNatAux, Char.toNat, UInt32.toNat]

theorem valid_of_lt {n : Nat} (h : n < 55296) : n.isValidChar := Or.inl h

theorem digit_toNat {d : Nat} (h : d < 10) : (Char.ofNat (48 + d)).toNat = 48 + d := by
  interval_cases d <;> rfl

theorem digit_isDigit {d : Nat} (h : d < 10) : (Char.ofNat (48 + d)).isDigit = true := by
  interval_cases d <;> rfl

theorem digit_not_ws {d : Nat} (h : d < 10) : isWs (Char.ofNat (48 + d)) = false := by
  interval_cases d <;> rfl

theorem skipWs_nil : skipWs [] = [] := rfl

theorem skipWs_cons_ws {c : Char} (h : isWs c = true) (cs : List Char) :
    skipWs (c :: cs) = skipWs cs := by
  simp [skipWs, List.dropWhile_cons, h]

theorem skipWs_cons_not_ws {c : Char} (h : isWs c = false) (cs : List Char) :
    skipWs (c :: cs) = c :: cs := by
  simp [skipWs, List.dropWhile_cons, h]

theorem skipWs_spaces (n : Nat) (cs : List Char) :
    skipWs (spaces n ++ cs) = skipWs cs := by
  induction n with
  | zero => simp [spaces]
  | succ m ih =>
    rw [spaces, List.replicate_succ, List.cons_append, skipWs_cons_ws (by rfl)]
    exact ih

/-!
Round-trip lemmas: string escaping.
-/

theorem escList_nil : escList [] = [] := rfl

theorem escList_cons (c : Char) (cs : List Char) :
    escList (c :: cs) = escChar c ++ escList cs := rfl

theorem escChar_length_pos (c : Char) : 1 ≤ (escChar c).length := by
  unfold escChar
  split_ifs <;> simp

theorem escList_length_ge (cs : List Char) : cs.length ≤ (escList cs).length := by
  induction cs with
  | nil => simp [escList_nil]
  | cons c cs ih =>
    rw [escList_cons]
    have := escChar_length_pos c
    simp only [List.length_cons, List.length_append]
    omega

theorem char_valid_toNat (c : Char) :
    c.toNat < 55296 ∨ (57343 < c.toNat ∧ c.toNat < 1114112) := by
  have h := c.valid
  exact h

theorem hexVal_hexDigit {m : Nat} (h : m < 16) : hexVal? (hexDigit m) = some m := by
  interval_cases m <;> rfl

theorem parseHex4_hex4 (n : Nat) (h : n < 65536) (rest : List Char) :
    parseHex4 (hex4 n ++ rest) = some (n, rest) := by
  have h1 := hexVal_hexDigit (show n / 4096 % 16 < 16 from Nat.mod_lt _ (by norm_num))
  have h2 := hexVal_hexDigit (show n / 256 % 16 < 16 from Nat.mod_lt _ (by norm_num))
  have h3 := hexVal_hexDigit (show n / 16 % 16 < 16 from Nat.mod_lt _ (by norm_num))
  have h4 := hexVal_hexDigit (show n % 16 < 16 from Nat.mod_lt _ (by norm_num))
  simp only [hex4, List.cons_append, List.nil_append, parseHex4, h1, h2, h3, h4]
  congr 1
  congr 1
  omega

theorem parseStr_step_esc2 (f : Nat) (e : Char) (c : Char) (tail : List Char)
    (he : (e = '"' ∧ c = '"') ∨ (e = '\\' ∧ c = '\\') ∨ (e = 'n' ∧ c = '\n')
      ∨ (e = 't' ∧ c = '\t') ∨ (e = 'r' ∧ c = '\r')
      ∨ (e = 'b' ∧ c = Char.ofNat 8) ∨ (e = 'f' ∧ c = Char.ofNat 12)) :
    parseStrBody (f + 1) ('\\' :: e :: tail)
      = (parseStrBody f tail).map (fun r => (c :: r.1, r.2)) := by
  rcases he with ⟨rfl, rfl⟩ | ⟨rfl, rfl⟩ | ⟨rfl, rfl⟩ | ⟨rfl, rfl⟩ | ⟨rfl, rfl⟩
    | ⟨rfl, rfl⟩ | ⟨rfl, rfl⟩ <;> rfl

theorem parseStr_step_plain (f : Nat) (c : Char) (tail : List Char)
    (h1 : ¬ c = '"') (h2 : ¬ c = '\\') :
    parseStrBody (f + 1) (c :: tail)
      = (parseStrBody f tail).map (fun r => (c :: r.1, r.2)) := by
  simp only [parseStrBody]
  unfold parseStrStep
  rw [if_neg h1, if_neg h2]

theorem parseStr_step_u (f : Nat) (n : Nat) (tail : List Char)
    (hlt : n < 65536) (hlo : ¬ (55296 ≤ n ∧ n ≤ 56319)) (hhi : ¬ (56320 ≤ n ∧ n ≤ 57343)) :
    parseStrBody (f + 1) ('\\' :: 'u' :: (hex4 n ++ tail))
      = (parseStrBody f tail).map (fun r => (Char.ofNat n :: r.1, r.2)) := by
  have hp := parseHex4_hex4 n hlt tail
  simp only [parseStrBody]
  simp [parseStrStep, hp, hlo, hhi]

theorem parseStr_step_pair (f : Nat) (n m : Nat) (tail : List Char)
    (hn : 55296 ≤ n ∧ n ≤ 56319) (hm : 56320 ≤ m ∧ m ≤ 57343) :
    parseStrBody (f + 1) ('\\' :: 'u' :: (hex4 n ++ '\\' :: 'u' :: (hex4 m ++ tail)))
      = (parseStrBody f tail).map
          (fun r => (Char.ofNat (65536 + (n - 55296) * 1024 + (m - 56320)) :: r.1, r.2)) := by
  have hpn := parseHex4_hex4 n (by omega) ('\\' :: 'u' :: (hex4 m ++ tail))
  have hpm := parseHex4_hex4 m (by omega) tail
  simp only [parseStrBody]
  simp [parseStrStep, hpn, hpm, hn, hm, hn.1, hn.2, hm.1, hm.2]

set_option maxHeartbeats 1000000 in
theorem parseStrBody_esc :
    ∀ (cs : List Char) (fuel : Nat) (rest : List Char), cs.length + 1 ≤ fuel →
      parseStrBody fuel (escList cs ++ '"' :: rest) = some (cs, rest) := by
  intro cs
  induction cs with
  | nil =>
    intro fuel rest hf
    obtain ⟨f, rfl⟩ : ∃ f, fuel = f + 1 := ⟨fuel - 1, by omega⟩
    rw [escList_nil, List.nil_append]
    rfl
  | cons c cs ih =>
    intro fuel rest hf
    obtain ⟨f, rfl⟩ : ∃ f, fuel = f + 1 := ⟨fuel - 1, by omega⟩
    have hf2 : cs.length + 1 ≤ f := by
      simp only [List.length_cons] at hf
      omega
    have hih := ih f rest hf2
    rw [escList_cons, List.append_assoc]
    by_cases h1 : c = '"'
    case pos =>
      subst h1
      show parseStrBody (f + 1) ('\\' :: '"' :: (escList cs ++ '"' :: rest)) = _
      rw [parseStr_step_esc2 f '"' '"' _ (Or.inl ⟨rfl, rfl⟩), hih]
      rfl
    by_cases h2 : c = '\\'
    case pos =>
      subst h2
      show parseStrBody (f + 1) ('\\' :: '\\' :: (escList cs ++ '"' :: rest)) = _
      rw [parseStr_step_esc2 f '\\' '\\' _ (by tauto), hih]
      rfl
    by_cases h3 : c = '\n'
    case pos =>
      subst h3
      show parseStrBody (f + 1) ('\\' :: 'n' :: (escList cs ++ '"' :: rest)) = _
      rw [parseStr_step_esc2 f 'n' '\n' _ (by tauto), hih]
      rfl
    by_cases h4 : c = '\t'
    case pos =>
      subst h4
      show parseStrBody (f + 1) ('\\' :: 't' :: (escList cs ++ '"' :: rest)) = _
      rw [parseStr_step_esc2 f 't' '\t' _ (by tauto), hih]
      rfl
    by_cases h5 : c = '\r'
    case pos =>
      subst h5
      show parseStrBody (f + 1) ('\\' :: 'r' :: (escList cs ++ '"' :: rest)) = _
      rw [parseStr_step_esc2 f 'r' '\r' _ (by tauto), hih]
      rfl
    by_cases h6 : c.toNat = 8
    case pos =>
      have hc : c = Char.ofNat 8 := by rw [← Char.ofNat_toNat c, h6]
      have hesc : escChar c = ['\\', 'b'] := by
        unfold escChar
        split_ifs <;> simp_all
      rw [hesc]
      show parseStrBody (f + 1) ('\\' :: 'b' :: (escList cs ++ '"' :: rest)) = _
      rw [parseStr_step_esc2 f 'b' (Char.ofNat 8) _ (by tauto), hih, ← hc]
      rfl
    by_cases h7 : c.toNat = 12
    case pos =>
      have hc : c = Char.ofNat 12 := by rw [← Char.ofNat_toNat c, h7]
      have hesc : escChar c = ['\\', 'f'] := by
        unfold escChar
        split_ifs <;> simp_all
      rw [hesc]
      show parseStrBody (f + 1) ('\\' :: 'f' :: (escList cs ++ '"' :: rest)) = _
      rw [parseStr_step_esc2 f 'f' (Char.ofNat 12) _ (by tauto), hih, ← hc]
      rfl
    by_cases h8 : 32 ≤ c.toNat ∧ c.toNat < 127
    case pos =>
      have hesc : escChar c = [c] := by
        unfold escChar
        split_ifs <;> simp_all
      rw [hesc]
      show parseStrBody (f + 1) (c :: (escList cs ++ '"' :: rest)) = _
      rw [parseStr_step_plain f c _ h1 h2, hih]
      rfl
    by_cases h9 : c.toNat < 65536
    case pos =>
      have hesc : escChar c = '\\' :: 'u' :: hex4 c.toNat := by
        unfold escChar
        split_ifs <;> simp_all
      rw [hesc]
      have hv := char_valid_toNat c
      show parseStrBody (f + 1)
          ('\\' :: 'u' :: (hex4 c.toNat ++ (escList cs ++ '"' :: rest))) = _
      rw [parseStr_step_u f c.toNat _ h9 (by omega) (by omega), hih, Char.ofNat_toNat]
      rfl
    case neg =>
      have hv := char_valid_toNat c
      have hesc : escChar c
          = ('\\' :: 'u' :: hex4 (55296 + (c.toNat - 65536) / 1024))
            ++ ('\\' :: 'u' :: hex4 (56320 + (c.toNat - 65536) % 1024)) := by
        unfold escChar
        split_ifs <;> simp_all
      rw [hesc]
      have hm1 : (c.toNat - 65536) / 1024 ≤ 1023 := by omega
      have hm2 : (c.toNat - 65536) % 1024 ≤ 1023 :=
        Nat.le_of_lt_succ (Nat.mod_lt _ (by norm_num))
      show parseStrBody (f + 1)
          ('\\' :: 'u' :: (hex4 (55296 + (c.toNat - 65536) / 1024)
            ++ '\\' :: 'u' :: (hex4 (56320 + (c.toNat - 65536) % 1024)
              ++ (escList cs ++ '"' :: rest)))) = _
      rw [parseStr_step_pair f _ _ _ ⟨by omega, by omega⟩ ⟨by omega, by omega⟩, hih]
      have harith : 65536 + (55296 + (c.toNat - 65536) / 1024 - 55296) * 1024
          + (56320 + (c.toNat - 65536) % 1024 - 56320) = c.toNat := by
        have := Nat.div_add_mod (c.toNat - 65536) 1024
        omega
      rw [harith, Char.ofNat_toNat]
      rfl

/-!
Round-trip lemmas: numbers.
-/

theorem natDigitsAux_spec :
    ∀ (fuel n : Nat), n ≤ fuel →
      (∀ d ∈ natDigitsAux fuel n, d < 10) ∧ Nat.ofDigits 10 (natDigitsAux fuel n) = n := by
  intro fuel
  induction fuel with
  | zero =>
    intro n hn
    interval_cases n
    simp [natDigitsAux, Nat.ofDigits]
  | succ f ih =>
    intro n hn
    by_cases h0 : n = 0
    · subst h0
      simp [natDigitsAux, Nat.ofDigits]
    · rw [natDigitsAux, if_neg h0]
      have hrec := ih (n / 10) (by omega)
      refine ⟨?_, ?_⟩
      · intro d hd
        rcases List.mem_cons.mp hd with rfl | hd2
        · exact Nat.mod_lt _ (by norm_num)
        · exact hrec.1 d hd2
      · rw [Nat.ofDigits_cons, hrec.2]
        omega

theorem natDigitsLE_spec (n : Nat) :
    (∀ d ∈ natDigitsLE n, d < 10) ∧ Nat.ofDigits 10 (natDigitsLE n) = n :=
  natDigitsAux_spec n n le_rfl

theorem foldr_eq_ofDigits (ds : List Nat) :
    ds.foldr (fun d a => a * 10 + d) 0 = Nat.ofDigits 10 ds := by
  induction ds with
  | nil => simp [Nat.ofDigits]
  | cons d t ih =>
    rw [List.foldr_cons, ih, Nat.ofDigits_cons]
    push_cast
    omega

theorem foldl_digit_chars (ds : List Nat) (h : ∀ d ∈ ds, d < 10) :
    ∀ (acc : Nat),
      (ds.map (fun d => Char.ofNat (48 + d))).foldl
        (fun a c => a * 10 + (c.toNat - 48)) acc
      = ds.foldl (fun a d => a * 10 + d) acc := by
  induction ds with
  | nil => intro acc; rfl
  | cons d t ih =>
    intro acc
    have hd : d < 10 := h d (List.mem_cons_self _ _)
    rw [List.map_cons, List.foldl_cons, List.foldl_cons, digit_toNat hd,
      ih (fun x hx => h x (List.mem_cons_of_mem _ hx))]
    congr 1
    omega

theorem foldl_msf_value (le : List Nat) :
    le.reverse.foldl (fun a d => a * 10 + d) 0 = Nat.ofDigits 10 le := by
  rw [List.foldl_reverse, foldr_eq_ofDigits]

theorem natChars_digits (n : Nat) :
    ∃ ds : List Nat, natChars n = ds.map (fun d => Char.ofNat (48 + d))
      ∧ (∀ d ∈ ds, d < 10) ∧ ds ≠ []
      ∧ ds.foldl (fun a d => a * 10 + d) 0 = n := by
  by_cases h0 : n = 0
  · subst h0
    exact ⟨[0], by rfl, by simp, by simp, rfl⟩
  · refine ⟨(natDigitsLE n).reverse, ?_, ?_, ?_, ?_⟩
    · rw [natChars, if_neg h0]
    · intro d hd
      exact (natDigitsLE_spec n).1 d (List.mem_reverse.mp hd)
    · have hv := (natDigitsLE_spec n).2
      intro hnil
      rw [List.reverse_eq_nil_iff] at hnil
      rw [hnil] at hv
      simp [Nat.ofDigits] at hv
      omega
    · rw [foldl_msf_value, (natDigitsLE_spec n).2]

theorem ofFracDigits_nil : ofFracDigits [] = 0 := rfl

theorem ofFracDigits_cons (d : Nat) (t : List Nat) :
    ofFracDigits (d :: t) = ((d : ℚ) + ofFracDigits t) / 10 := rfl

theorem fracDigits_spec :
    ∀ (fuel : Nat) (x : ℚ), 0 ≤ x → x < 1 → ∀ ds, fracDigits fuel x = some ds →
      (∀ d ∈ ds, d < 10) ∧ ofFracDigits ds = x := by
  intro fuel
  induction fuel with
  | zero =>
    intro x h0 h1 ds hds
    rw [fracDigits] at hds
    split at hds
    · cases hds
      subst x
      simp [ofFracDigits_nil]
    · cases hds
  | succ f ih =>
    intro x h0 h1 ds hds
    rw [fracDigits] at hds
    split at hds
    · cases hds
      subst x
      simp [ofFracDigits_nil]
    · rename_i hx0
      cases hrec : fracDigits f (Int.fract (x * 10)) with
      | none => rw [hrec] at hds; cases hds
      | some ds2 =>
        rw [hrec] at hds
        cases hds
        have hb := ih (Int.fract (x * 10)) (Int.fract_nonneg _) (Int.fract_lt_one _) ds2 hrec
        have hd10 : (Int.floor (x * 10)).toNat < 10 := by
          have hlt : Int.floor (x * 10) < 10 := by
            have : (x * 10 : ℚ) < 10 := by linarith
            exact_mod_cast Int.floor_lt.mpr (by push_cast; linarith)
          have hge : (0 : ℤ) ≤ Int.floor (x * 10) := Int.floor_nonneg.mpr (by positivity)
          omega
        refine ⟨?_, ?_⟩
        · intro d hd
          rcases List.mem_cons.mp hd with rfl | hd2
          · exact hd10
          · exact hb.1 d hd2
        · show ofFracDigits (⌊x * 10⌋.toNat :: ds2) = x
          rw [ofFracDigits_cons, hb.2]
          have hfl : ((Int.floor (x * 10)).toNat : ℚ) = (Int.floor (x * 10) : ℚ) := by
            have hge : (0 : ℤ) ≤ Int.floor (x * 10) := Int.floor_nonneg.mpr (by positivity)
            exact_mod_cast Int.toNat_of_nonneg hge
          rw [hfl]
          have := Int.floor_add_fract (x * 10)
          field_simp

theorem boundary_facts {rest : List Char} (h : NumBoundary rest) :
    ∀ c cs2, rest = c :: cs2 → c.isDigit = false ∧ ¬ c = '.' := by
  intro c cs2 hr
  rcases h with rfl | ⟨c2, cs3, rfl, hc2⟩
  · cases hr
  · cases hr
    rcases hc2 with rfl | rfl | rfl | rfl <;> exact ⟨by rfl, by decide⟩

theorem takeWhile_digit_chars (ds : List Nat) (h : ∀ d ∈ ds, d < 10)
    (rest : List Char) (hrest : ∀ c cs2, rest = c :: cs2 → c.isDigit = false) :
    ((ds.map (fun d => Char.ofNat (48 + d))) ++ rest).takeWhile Char.isDigit
      = ds.map (fun d => Char.ofNat (48 + d)) := by
  induction ds with
  | nil =>
    cases rest with
    | nil => rfl
    | cons c cs2 =>
      simp [List.takeWhile_cons, hrest c cs2 rfl]
  | cons d t ih =>
    have hd := h d (List.mem_cons_self _ _)
    simp only [List.map_cons, List.cons_append, List.takeWhile_cons, digit_isDigit hd,
      if_true]
    rw [ih (fun x hx => h x (List.mem_cons_of_mem _ hx))]

theorem dropWhile_digit_chars (ds : List Nat) (h : ∀ d ∈ ds, d < 10)
    (rest : List Char) (hrest : ∀ c cs2, rest = c :: cs2 → c.isDigit = false) :
    ((ds.map (fun d => Char.ofNat (48 + d))) ++ rest).dropWhile Char.isDigit = rest := by
  induction ds with
  | nil =>
    cases rest with
    | nil => rfl
    | cons c cs2 =>
      simp [List.dropWhile_cons, hrest c cs2 rfl]
  | cons d t ih =>
    have hd := h d (List.mem_cons_self _ _)
    simp only [List.map_cons, List.cons_append, List.dropWhile_cons, digit_isDigit hd]
    exact ih (fun x hx => h x (List.mem_cons_of_mem _ hx))

theorem span_digit_chars (ds : List Nat) (h : ∀ d ∈ ds, d < 10)
    (rest : List Char) (hrest : ∀ c cs2, rest = c :: cs2 → c.isDigit = false) :
    ((ds.map (fun d => Char.ofNat (48 + d))) ++ rest).span Char.isDigit
      = (ds.map (fun d => Char.ofNat (48 + d)), rest) := by
  rw [List.span_eq_take_drop, takeWhile_digit_chars ds h rest hrest,
    dropWhile_digit_chars ds h rest hrest]

theorem fracDigits_some_nil {fuel : Nat} {x : ℚ}
    (h : fracDigits fuel x = some []) : x = 0 := by
  cases fuel with
  | zero =>
    rw [fracDigits] at h
    split at h
    · assumption
    · cases h
  | succ f =>
    rw [fracDigits] at h
    split at h
    · assumption
    · cases hrec : fracDigits f (Int.fract (x * 10)) with
      | none => rw [hrec] at h; cases h
      | some t => rw [hrec] at h; simp at h

theorem floor_toNat_cast {a : ℚ} (ha : 0 ≤ a) :
    ((Int.floor a).toNat : ℚ) = (Int.floor a : ℚ) := by
  have h2 : (0 : ℤ) ≤ Int.floor a := Int.floor_nonneg.mpr ha
  exact_mod_cast Int.toNat_of_nonneg h2

theorem intpart_eq {a : ℚ} (ha : 0 ≤ a) (hfr : Int.fract a = 0) :
    ((Int.floor a).toNat : ℚ) = a := by
  rw [floor_toNat_cast ha]
  have := Int.floor_add_fract a
  rw [hfr] at this
  linarith

theorem ofFracDigits_eq_foldr_chars (ds : List Nat) (h : ∀ d ∈ ds, d < 10) :
    (ds.map (fun d => Char.ofNat (48 + d))).foldr
        (fun c acc => (((c.toNat - 48 : ℕ) : ℚ) + acc) / 10) 0
      = ofFracDigits ds := by
  induction ds with
  | nil => rfl
  | cons d t ih =>
    have hd := h d (List.mem_cons_self _ _)
    rw [List.map_cons, List.foldr_cons, ih (fun x hx => h x (List.mem_cons_of_mem _ hx)),
      ofFracDigits_cons, digit_toNat hd]
    norm_num

theorem intfrac_sum {a : ℚ} (ha : 0 ≤ a) : ((Int.floor a).toNat : ℚ) + Int.fract a = a := by
  rw [floor_toNat_cast ha]
  have := Int.floor_add_fract a
  linarith

theorem parseNumAux_print_int (neg : Bool) (a : ℚ) (ha : 0 ≤ a)
    (hfr : Int.fract a = 0) (rest : List Char) (hrest : NumBoundary rest) :
    parseNumAux neg (natChars (Int.floor a).toNat ++ rest)
      = some (if neg then -a else a, rest) := by
  obtain ⟨dsn, hmap, hdig, hne, hval⟩ := natChars_digits (Int.floor a).toNat
  have hbd : ∀ c cs2, rest = c :: cs2 → c.isDigit = false :=
    fun c cs2 hr => (boundary_facts hrest c cs2 hr).1
  have hmapne : ¬ dsn.map (fun d => Char.ofNat (48 + d)) = [] := by
    intro hx
    exact hne (List.map_eq_nil.mp hx)
  have hip : ((Int.floor a).toNat : ℚ) = a := intpart_eq ha hfr
  rw [hmap, parseNumAux]
  rw [span_digit_chars dsn hdig rest hbd]
  simp only [hmapne, if_false, if_neg hmapne]
  have hipv : ((dsn.map (fun d => Char.ofNat (48 + d))).foldl
      (fun acc c => acc * 10 + (c.toNat - 48)) 0 : ℕ) = (Int.floor a).toNat := by
    rw [foldl_digit_chars dsn hdig, hval]
  rcases hrest with rfl | ⟨c2, cs3, rfl, hc2⟩
  · simp only [hipv, hip]
  · have hnd : ¬ c2 = '.' := (boundary_facts (Or.inr ⟨c2, cs3, rfl, hc2⟩) c2 cs3 rfl).2
    simp only [if_neg hnd, hipv, hip]

theorem parseNumAux_print_frac (neg : Bool) (a : ℚ) (ha : 0 ≤ a)
    (ds : List Nat) (hne2 : ds ≠ []) (hdig2 : ∀ d ∈ ds, d < 10)
    (hfrac : ofFracDigits ds = Int.fract a) (rest : List Char) (hrest : NumBoundary rest) :
    parseNumAux neg (natChars (Int.floor a).toNat
        ++ '.' :: (ds.map (fun d => Char.ofNat (48 + d)) ++ rest))
      = some (if neg then -a else a, rest) := by
  obtain ⟨dsn, hmap, hdig, hne, hval⟩ := natChars_digits (Int.floor a).toNat
  have hbd : ∀ c cs2, rest = c :: cs2 → c.isDigit = false :=
    fun c cs2 hr => (boundary_facts hrest c cs2 hr).1
  have hmapne : ¬ dsn.map (fun d => Char.ofNat (48 + d)) = [] := by
    intro hx
    exact hne (List.map_eq_nil.mp hx)
  have hfne : ¬ ds.map (fun d => Char.ofNat (48 + d)) = [] := by
    intro hx
    exact hne2 (List.map_eq_nil.mp hx)
  rw [hmap, parseNumAux]
  rw [span_digit_chars dsn hdig ('.' :: (ds.map (fun d => Char.ofNat (48 + d)) ++ rest))
    (by intro c cs2 hx; cases hx; rfl)]
  simp only [if_neg hmapne, if_pos rfl]
  rw [span_digit_chars ds hdig2 rest hbd]
  simp only [if_neg hfne]
  have hipv : ((dsn.map (fun d => Char.ofNat (48 + d))).foldl
      (fun acc c => acc * 10 + (c.toNat - 48)) 0 : ℕ) = (Int.floor a).toNat := by
    rw [foldl_digit_chars dsn hdig, hval]
  have hv : (((dsn.map (fun d => Char.ofNat (48 + d))).foldl
        (fun acc c => acc * 10 + (c.toNat - 48)) 0 : ℕ) : ℚ)
      + (ds.map (fun d => Char.ofNat (48 + d))).foldr
          (fun c acc => (((c.toNat - 48 : ℕ) : ℚ) + acc) / 10) 0 = a := by
    rw [hipv, ofFracDigits_eq_foldr_chars ds hdig2, hfrac]
    exact intfrac_sum ha
  simp only [hv, if_true]

theorem natChars_head_digit (n : Nat) :
    ∃ d t, natChars n = Char.ofNat (48 + d) :: t ∧ d < 10 := by
  obtain ⟨dsn, hmap, hdig, hne, hval⟩ := natChars_digits n
  cases hdsn : dsn with
  | nil => exact absurd hdsn hne
  | cons d0 t0 =>
    subst hdsn
    exact ⟨d0, t0.map (fun d => Char.ofNat (48 + d)), by rw [hmap, List.map_cons],
      hdig d0 (List.mem_cons_self _ _)⟩

theorem digit_ne_minus {d : Nat} (h : d < 10) : ¬ Char.ofNat (48 + d) = '-' := by
  interval_cases d <;> decide

theorem parseJsonNum_print (q : ℚ)
    (hc : (fracDigits digitFuel (Int.fract |q|)).isSome)
    (rest : List Char) (hrest : NumBoundary rest) :
    parseJsonNum (jsonNumChars q ++ rest) = some (q, rest) := by
  obtain ⟨ds, hds⟩ := Option.isSome_iff_exists.mp hc
  have habs : (0 : ℚ) ≤ |q| := abs_nonneg q
  have hspec := fracDigits_spec digitFuel (Int.fract |q|) (Int.fract_nonneg _)
    (Int.fract_lt_one _) ds hds
  rw [jsonNumChars]
  simp only [hds]
  cases hds0 : ds with
  | nil =>
    subst hds0
    have hfr : Int.fract |q| = 0 := fracDigits_some_nil hds
    by_cases hneg : q < 0
    · rw [if_pos hneg]
      show parseJsonNum ('-' :: (natChars (Int.floor |q|).toNat ++ rest)) = _
      rw [parseJsonNum, if_pos rfl, parseNumAux_print_int true |q| habs hfr rest hrest]
      rw [abs_of_neg hneg]
      norm_num
    · rw [if_neg hneg]
      show parseJsonNum (natChars (Int.floor |q|).toNat ++ rest) = _
      obtain ⟨d0, t0, hhead, hd0⟩ := natChars_head_digit (Int.floor |q|).toNat
      rw [hhead, List.cons_append, parseJsonNum, if_neg (digit_ne_minus hd0),
        ← List.cons_append, ← hhead, parseNumAux_print_int false |q| habs hfr rest hrest,
        abs_of_nonneg (le_of_not_lt hneg)]
      simp
  | cons e0 es0 =>
    subst hds0
    have hdsne : (e0 :: es0) ≠ [] := by simp
    have hassoc : ((natChars (Int.floor |q|).toNat
        ++ '.' :: List.map (fun d => Char.ofNat (48 + d)) (e0 :: es0)) ++ rest)
        = natChars (Int.floor |q|).toNat
        ++ '.' :: (List.map (fun d => Char.ofNat (48 + d)) (e0 :: es0) ++ rest) := by
      simp
    by_cases hneg : q < 0
    · rw [if_pos hneg]
      show parseJsonNum ('-' :: ((natChars (Int.floor |q|).toNat
          ++ '.' :: List.map (fun d => Char.ofNat (48 + d)) (e0 :: es0)) ++ rest)) = _
      rw [hassoc, parseJsonNum, if_pos rfl,
        parseNumAux_print_frac true |q| habs (e0 :: es0) hdsne hspec.1 hspec.2 rest hrest,
        abs_of_neg hneg]
      norm_num
    · rw [if_neg hneg]
      show parseJsonNum ((natChars (Int.floor |q|).toNat
          ++ '.' :: List.map (fun d => Char.ofNat (48 + d)) (e0 :: es0)) ++ rest) = _
      rw [hassoc]
      obtain ⟨d0, t0, hhead, hd0⟩ := natChars_head_digit (Int.floor |q|).toNat
      rw [hhead, List.cons_append, parseJsonNum, if_neg (digit_ne_minus hd0),
        ← List.cons_append, ← hhead,
        parseNumAux_print_frac false |q| habs (e0 :: es0) hdsne hspec.1 hspec.2 rest hrest,
        abs_of_nonneg (le_of_not_lt hneg)]
      simp

/-!
Round-trip lemmas: structural helpers for the printer/parser induction.
-/

theorem skipWs_append_ws (pre : List Char) (cs : List Char)
    (h : ∀ c ∈ pre, isWs c = true) : skipWs (pre ++ cs) = skipWs cs := by
  induction pre with
  | nil => rfl
  | cons c t ih =>
    rw [List.cons_append, skipWs_cons_ws (h c (by simp)),
      ih (fun x hx => h x (by simp [hx]))]

theorem spaces_all_ws (n : Nat) : ∀ c ∈ spaces n, isWs c = true := by
  intro c hc
  rw [spaces, List.mem_replicate] at hc
  rw [hc.2]
  rfl

theorem jsonNumChars_head (q : ℚ) :
    ∃ c t, jsonNumChars q = c :: t ∧ (c = '-' ∨ c.isDigit = true) := by
  obtain ⟨d0, t0, hh, hd0⟩ := natChars_head_digit (Int.floor |q|).toNat
  rw [jsonNumChars]
  cases hfd : fracDigits digitFuel (Int.fract |q|) with
  | none =>
    by_cases hq : q < 0
    · exact ⟨'-', _, by rw [if_pos hq]; rfl, Or.inl rfl⟩
    · rw [if_neg hq, List.nil_append, hh]
      exact ⟨_, _, rfl, Or.inr (digit_isDigit hd0)⟩
  | some ds =>
    cases ds with
    | nil =>
      by_cases hq : q < 0
      · exact ⟨'-', _, by rw [if_pos hq]; rfl, Or.inl rfl⟩
      · rw [if_neg hq, List.nil_append, hh]
        exact ⟨_, _, rfl, Or.inr (digit_isDigit hd0)⟩
    | cons e es =>
      by_cases hq : q < 0
      · exact ⟨'-', _, by rw [if_pos hq]; rfl, Or.inl rfl⟩
      · rw [if_neg hq, List.nil_append, hh]
        exact ⟨Char.ofNat (48 + d0),
          t0 ++ '.' :: List.map (fun d => Char.ofNat (48 + d)) (e :: es),
          rfl, Or.inr (digit_isDigit hd0)⟩

theorem isDigit_ne {c : Char} (h : c.isDigit = true) {d : Char}
    (hd : d.isDigit = false) : ¬ c = d := by
  rintro rfl
  rw [h] at hd
  cases hd

theorem isDigit_not_ws {c : Char} (h : c.isDigit = true) : isWs c = false := by
  by_contra hws
  have h1 : isWs c = true := by
    cases h2 : isWs c
    · exact absurd h2 hws
    · rfl
  have h2 : c = ' ' ∨ c = '\n' ∨ c = '\t' ∨ c = '\r' := by
    simpa [isWs] using h1
  rcases h2 with rfl | rfl | rfl | rfl <;> exact absurd h (by decide)

theorem numHead_facts {c : Char} (h : c = '-' ∨ c.isDigit = true) :
    ¬ c = 'n' ∧ ¬ c = 't' ∧ ¬ c = 'f' ∧ ¬ c = '"' ∧ ¬ c = '[' ∧ ¬ c = '\x7b' ∧
      isWs c = false ∧ ¬ c = ']' ∧ ¬ c = '\x7d' := by
  rcases h with rfl | h
  · refine ⟨by decide, by decide, by decide, by decide, by decide, by decide,
      by decide, by decide, by decide⟩
  · exact ⟨isDigit_ne h (by decide), isDigit_ne h (by decide), isDigit_ne h (by decide),
      isDigit_ne h (by decide), isDigit_ne h (by decide), isDigit_ne h (by decide),
      isDigit_not_ws h, isDigit_ne h (by decide), isDigit_ne h (by decide)⟩

theorem jsonVal_head (lvl : Nat) (v : Val) :
    ∃ c t, jsonVal lvl v = c :: t ∧ isWs c = false ∧ ¬ c = ']' ∧ ¬ c = '\x7d' := by
  cases v with
  | none =>
    exact ⟨'n', ['u', 'l', 'l'], by simp [jsonVal], by decide, by decide, by decide⟩
  | bool b =>
    cases b with
    | true =>
      exact ⟨'t', ['r', 'u', 'e'], by simp [jsonVal], by decide, by decide, by decide⟩
    | false =>
      exact ⟨'f', ['a', 'l', 's', 'e'], by simp [jsonVal], by decide, by decide, by decide⟩
  | num q =>
    obtain ⟨c, t, hh, hor⟩ := jsonNumChars_head q
    have hf := numHead_facts hor
    exact ⟨c, t, by simp only [jsonVal]; exact hh, hf.2.2.2.2.2.2.1,
      hf.2.2.2.2.2.2.2.1, hf.2.2.2.2.2.2.2.2⟩
  | str s =>
    exact ⟨'"', escList s.data ++ ['"'], by simp [jsonVal], by decide, by decide, by decide⟩
  | datetime s =>
    exact ⟨'"', escList s.data ++ ['"'], by simp [jsonVal], by decide, by decide, by decide⟩
  | list xs =>
    cases xs with
    | nil => exact ⟨'[', [']'], by simp [jsonVal], by decide, by decide, by decide⟩
    | cons x t =>
      exact ⟨'[', '\n' :: jsonItems (lvl + 1) (x :: t) ++ '\n' :: spaces (2 * lvl) ++ [']'],
        by simp [jsonVal], by decide, by decide, by decide⟩
  | dict d =>
    cases d with
    | nil => exact ⟨'\x7b', ['\x7d'], by simp [jsonVal], by decide, by decide, by decide⟩
    | cons e t =>
      exact ⟨'\x7b', '\n' :: jsonEntries (lvl + 1) (e :: t) ++ '\n' :: spaces (2 * lvl) ++ ['\x7d'],
        by simp [jsonVal], by decide, by decide, by decide⟩

theorem degrade_none : degrade .none = .none := by simp [degrade]

theorem degrade_bool (b : Bool) : degrade (.bool b) = .bool b := by simp [degrade]

theorem degrade_num (q : ℚ) : degrade (.num q) = .num q := by simp [degrade]

theorem degrade_str (s : String) : degrade (.str s) = .str s := by simp [degrade]

theorem degrade_datetime (s : String) : degrade (.datetime s) = .str s := by
  simp [degrade]

theorem degrade_list (xs : List Val) :
    degrade (.list xs) = .list (xs.map degrade) := by
  rw [degrade]
  congr 1
  rw [List.attach_map_coe]

theorem degrade_dict (d : List (String × Val)) :
    degrade (.dict d) = .dict (d.map (fun p => (p.1, degrade p.2))) := by
  rw [degrade]
  congr 1
  exact List.attach_map_coe d (fun p => (p.1, degrade p.2))

theorem jsonCompat_num (q : ℚ) :
    jsonCompat (.num q) = (fracDigits digitFuel (Int.fract |q|)).isSome := by
  simp [jsonCompat]

theorem jsonCompatList_iff (xs : List Val) :
    jsonCompatList xs = true ↔ ∀ x ∈ xs, jsonCompat x = true := by
  induction xs with
  | nil => simp [jsonCompatList]
  | cons x t ih => simp [jsonCompatList, ih]

theorem jsonCompat_list_iff (xs : List Val) :
    jsonCompat (.list xs) = true ↔ ∀ x ∈ xs, jsonCompat x = true := by
  rw [jsonCompat]
  exact jsonCompatList_iff xs

theorem jsonCompatEntries_iff (d : List (String × Val)) :
    jsonCompatEntries d = true ↔ ∀ p ∈ d, jsonCompat p.2 = true := by
  induction d with
  | nil => simp [jsonCompatEntries]
  | cons e t ih => simp [jsonCompatEntries, ih]

theorem jsonCompat_dict_iff (d : List (String × Val)) :
    jsonCompat (.dict d) = true ↔
      (d.map Prod.fst).Nodup ∧ ∀ p ∈ d, jsonCompat p.2 = true := by
  rw [jsonCompat]
  simp [jsonCompatEntries_iff]

theorem noDatetimeList_iff (xs : List Val) :
    noDatetimeList xs = true ↔ ∀ x ∈ xs, noDatetime x = true := by
  induction xs with
  | nil => simp [noDatetimeList]
  | cons x t ih => simp [noDatetimeList, ih]

theorem noDatetime_list_iff (xs : List Val) :
    noDatetime (.list xs) = true ↔ ∀ x ∈ xs, noDatetime x = true := by
  rw [noDatetime]
  exact noDatetimeList_iff xs

theorem noDatetimeEntries_iff (d : List (String × Val)) :
    noDatetimeEntries d = true ↔ ∀ p ∈ d, noDatetime p.2 = true := by
  induction d with
  | nil => simp [noDatetimeEntries]
  | cons e t ih => simp [noDatetimeEntries, ih]

theorem noDatetime_dict_iff (d : List (String × Val)) :
    noDatetime (.dict d) = true ↔ ∀ p ∈ d, noDatetime p.2 = true := by
  rw [noDatetime]
  exact noDatetimeEntries_iff d

theorem degrade_id_aux :
    ∀ (n : Nat) (v : Val), sizeOf v ≤ n → noDatetime v = true → degrade v = v := by
  intro n
  induction n with
  | zero =>
    intro v hv
    cases v <;> simp at hv
  | succ n ih =>
    intro v hv hnd
    cases v with
    | none => exact degrade_none
    | bool b => exact degrade_bool b
    | num q => exact degrade_num q
    | str s => exact degrade_str s
    | datetime s => simp [noDatetime] at hnd
    | list xs =>
      rw [degrade_list]
      have hxs : sizeOf xs ≤ n := by
        have : sizeOf (Val.list xs) = 1 + sizeOf xs := by simp
        omega
      have hall := (noDatetime_list_iff xs).mp hnd
      congr 1
      have : ∀ x ∈ xs, degrade x = x := by
        intro x hx
        have h1 : sizeOf x < sizeOf xs := List.sizeOf_lt_of_mem hx
        exact ih x (by omega) (hall x hx)
      calc xs.map degrade = xs.map id := List.map_congr_left this
        _ = xs := List.map_id xs
    | dict d =>
      rw [degrade_dict]
      have hd : sizeOf d ≤ n := by
        have : sizeOf (Val.dict d) = 1 + sizeOf d := by simp
        omega
      have hall := (noDatetime_dict_iff d).mp hnd
      congr 1
      have : ∀ p ∈ d, (fun p : String × Val => (p.1, degrade p.2)) p = id p := by
        intro p hp
        have h1 : sizeOf p < sizeOf d := List.sizeOf_lt_of_mem hp
        have h2 : sizeOf p.2 < sizeOf p := by
          obtain ⟨a, b⟩ := p
          simp
        have := ih p.2 (by omega) (hall p hp)
        simp [this]
      calc d.map (fun p => (p.1, degrade p.2)) = d.map id := List.map_congr_left this
        _ = d := List.map_id d

theorem degrade_id (v : Val) (h : noDatetime v = true) : degrade v = v :=
  degrade_id_aux (sizeOf v) v (Nat.le_refl _) h

theorem jfuel_pos (v : Val) : 1 ≤ jfuel v := by
  cases v with
  | list xs => cases xs <;> simp [jfuel]
  | dict d => cases d <;> simp [jfuel]
  | _ => simp [jfuel]

theorem jfuelItems_pos (x : Val) (xs : List Val) : 1 ≤ jfuelItems x xs := by
  cases xs <;> simp [jfuelItems] <;> omega

theorem jfuelEntries_pos (e : String × Val) (es : List (String × Val)) :
    1 ≤ jfuelEntries e es := by
  cases es <;> simp [jfuelEntries] <;> omega

theorem parse_none_case (fuel lvl : Nat) (pre rest : List Char) (hpre : allWs pre) :
    parseJson (fuel + 1) (pre ++ (jsonVal lvl .none ++ rest)) =
      some (degrade .none, rest) := by
  have hv : jsonVal lvl Val.none ++ rest = 'n' :: ('u' :: 'l' :: 'l' :: rest) := by
    simp [jsonVal]
  have hsk : skipWs (pre ++ (jsonVal lvl Val.none ++ rest))
      = 'n' :: ('u' :: 'l' :: 'l' :: rest) := by
    rw [skipWs_append_ws pre _ hpre, hv]
    exact skipWs_cons_not_ws (by decide) _
  rw [parseJson, hsk]
  simp [degrade_none]

theorem parse_true_case (fuel lvl : Nat) (pre rest : List Char) (hpre : allWs pre) :
    parseJson (fuel + 1) (pre ++ (jsonVal lvl (.bool true) ++ rest)) =
      some (degrade (.bool true), rest) := by
  have hv : jsonVal lvl (Val.bool true) ++ rest = 't' :: ('r' :: 'u' :: 'e' :: rest) := by
    simp [jsonVal]
  have hsk : skipWs (pre ++ (jsonVal lvl (Val.bool true) ++ rest))
      = 't' :: ('r' :: 'u' :: 'e' :: rest) := by
    rw [skipWs_append_ws pre _ hpre, hv]
    exact skipWs_cons_not_ws (by decide) _
  rw [parseJson, hsk]
  simp [degrade_bool]

theorem parse_false_case (fuel lvl : Nat) (pre rest : List Char) (hpre : allWs pre) :
    parseJson (fuel + 1) (pre ++ (jsonVal lvl (.bool false) ++ rest)) =
      some (degrade (.bool false), rest) := by
  have hv : jsonVal lvl (Val.bool false) ++ rest
      = 'f' :: ('a' :: 'l' :: 's' :: 'e' :: rest) := by
    simp [jsonVal]
  have hsk : skipWs (pre ++ (jsonVal lvl (Val.bool false) ++ rest))
      = 'f' :: ('a' :: 'l' :: 's' :: 'e' :: rest) := by
    rw [skipWs_append_ws pre _ hpre, hv]
    exact skipWs_cons_not_ws (by decide) _
  rw [parseJson, hsk]
  simp [degrade_bool]

theorem parse_str_body_case (fuel : Nat) (sl : List Char) (pre rest : List Char)
    (hpre : allWs pre) :
    parseJson (fuel + 1) (pre ++ ('"' :: (escList sl ++ ('"' :: rest)))) =
      some (.str (String.mk sl), rest) := by
  have hsk : skipWs (pre ++ ('"' :: (escList sl ++ ('"' :: rest))))
      = '"' :: (escList sl ++ ('"' :: rest)) := by
    rw [skipWs_append_ws pre _ hpre]
    exact skipWs_cons_not_ws (by decide) _
  have hlen : sl.length + 1 ≤ (escList sl ++ ('"' :: rest)).length + 1 := by
    have := escList_length_ge sl
    simp [List.length_append]
    omega
  have hbody := parseStrBody_esc sl ((escList sl ++ ('"' :: rest)).length + 1) rest hlen
  rw [parseJson, hsk]
  simp only [List.length_append, List.length_cons] at hbody
  simp [hbody]

theorem parse_str_case (fuel lvl : Nat) (s : String) (pre rest : List Char)
    (hpre : allWs pre) :
    parseJson (fuel + 1) (pre ++ (jsonVal lvl (.str s) ++ rest)) =
      some (degrade (.str s), rest) := by
  obtain ⟨sl⟩ := s
  rw [degrade_str, show jsonVal lvl (Val.str (String.mk sl)) ++ rest
      = '"' :: (escList sl ++ ('"' :: rest)) from by simp [jsonVal]]
  exact parse_str_body_case fuel sl pre rest hpre

theorem parse_datetime_case (fuel lvl : Nat) (s : String) (pre rest : List Char)
    (hpre : allWs pre) :
    parseJson (fuel + 1) (pre ++ (jsonVal lvl (.datetime s) ++ rest)) =
      some (degrade (.datetime s), rest) := by
  obtain ⟨sl⟩ := s
  rw [degrade_datetime, show jsonVal lvl (Val.datetime (String.mk sl)) ++ rest
      = '"' :: (escList sl ++ ('"' :: rest)) from by simp [jsonVal]]
  exact parse_str_body_case fuel sl pre rest hpre

theorem parse_num_case (fuel lvl : Nat) (q : ℚ) (pre rest : List Char)
    (hpre : allWs pre) (hc : jsonCompat (.num q) = true) (hnb : NumBoundary rest) :
    parseJson (fuel + 1) (pre ++ (jsonVal lvl (.num q) ++ rest)) =
      some (degrade (.num q), rest) := by
  obtain ⟨c, t, hh, hor⟩ := jsonNumChars_head q
  have hf := numHead_facts hor
  have hc2 : (fracDigits digitFuel (Int.fract |q|)).isSome := by
    rw [← jsonCompat_num q]
    exact hc
  have hv : jsonVal lvl (Val.num q) ++ rest = c :: (t ++ rest) := by
    simp only [jsonVal]
    rw [hh, List.cons_append]
  have hsk : skipWs (pre ++ (jsonVal lvl (Val.num q) ++ rest)) = c :: (t ++ rest) := by
    rw [skipWs_append_ws pre _ hpre, hv]
    exact skipWs_cons_not_ws hf.2.2.2.2.2.2.1 _
  rw [parseJson, hsk]
  show (if c = 'n' then _ else _) = _
  rw [if_neg hf.1, if_neg hf.2.1, if_neg hf.2.2.1, if_neg hf.2.2.2.1,
    if_neg hf.2.2.2.2.1, if_neg hf.2.2.2.2.2.1, if_pos hor,
    ← List.cons_append, ← hh, parseJsonNum_print q hc2 rest hnb]
  rw [degrade_num]
  rfl

theorem parse_list_nil_case (fuel lvl : Nat) (pre rest : List Char) (hpre : allWs pre) :
    parseJson (fuel + 1) (pre ++ (jsonVal lvl (.list []) ++ rest)) =
      some (degrade (.list []), rest) := by
  have hv : jsonVal lvl (Val.list []) ++ rest = '[' :: (']' :: rest) := by
    simp [jsonVal]
  have hsk : skipWs (pre ++ (jsonVal lvl (Val.list []) ++ rest)) = '[' :: (']' :: rest) := by
    rw [skipWs_append_ws pre _ hpre, hv]
    exact skipWs_cons_not_ws (by decide) _
  rw [parseJson, hsk]
  rw [show degrade (Val.list []) = Val.list [] from by rw [degrade_list]; rfl]
  simp [skipWs_cons_not_ws (show isWs ']' = false from by decide)]

theorem parse_dict_nil_case (fuel lvl : Nat) (pre rest : List Char) (hpre : allWs pre) :
    parseJson (fuel + 1) (pre ++ (jsonVal lvl (.dict []) ++ rest)) =
      some (degrade (.dict []), rest) := by
  have hv : jsonVal lvl (Val.dict []) ++ rest = '\x7b' :: ('\x7d' :: rest) := by
    simp [jsonVal]
  have hsk : skipWs (pre ++ (jsonVal lvl (Val.dict []) ++ rest))
      = '\x7b' :: ('\x7d' :: rest) := by
    rw [skipWs_append_ws pre _ hpre, hv]
    exact skipWs_cons_not_ws (by decide) _
  rw [parseJson, hsk]
  rw [show degrade (Val.dict []) = Val.dict [] from by rw [degrade_dict]; rfl]
  simp [skipWs_cons_not_ws (show isWs '\x7d' = false from by decide)]

theorem parse_list_cons_case (fuel lvl : Nat) (x : Val) (xs : List Val)
    (pre rest : List Char) (hpre : allWs pre) (ihI : PI fuel)
    (hfu : jfuel (.list (x :: xs)) ≤ fuel + 1)
    (hc : jsonCompat (.list (x :: xs)) = true) (hnb : NumBoundary rest) :
    parseJson (fuel + 1) (pre ++ (jsonVal lvl (.list (x :: xs)) ++ rest)) =
      some (degrade (.list (x :: xs)), rest) := by
  have hv : jsonVal lvl (Val.list (x :: xs)) ++ rest
      = '[' :: ('\n' :: (jsonItems (lvl + 1) (x :: xs)
        ++ ('\n' :: (spaces (2 * lvl) ++ (']' :: rest))))) := by
    simp [jsonVal]
  have hsk : skipWs (pre ++ (jsonVal lvl (Val.list (x :: xs)) ++ rest))
      = '[' :: ('\n' :: (jsonItems (lvl + 1) (x :: xs)
        ++ ('\n' :: (spaces (2 * lvl) ++ (']' :: rest))))) := by
    rw [skipWs_append_ws pre _ hpre, hv]
    exact skipWs_cons_not_ws (by decide) _
  obtain ⟨c0, t0, hh0, hw0, hne0, hne0'⟩ := jsonVal_head (lvl + 1) x
  obtain ⟨tail, htail⟩ : ∃ tail, jsonItems (lvl + 1) (x :: xs)
      = spaces (2 * (lvl + 1)) ++ (jsonVal (lvl + 1) x ++ tail) := by
    cases xs with
    | nil => exact ⟨[], by simp [jsonItems]⟩
    | cons y t => exact ⟨',' :: ('\n' :: jsonItems (lvl + 1) (y :: t)), by simp [jsonItems]⟩
  have hsk1 : skipWs ('\n' :: (jsonItems (lvl + 1) (x :: xs)
      ++ ('\n' :: (spaces (2 * lvl) ++ (']' :: rest)))))
      = c0 :: (t0 ++ (tail ++ ('\n' :: (spaces (2 * lvl) ++ (']' :: rest))))) := by
    rw [skipWs_cons_ws (by decide), htail, List.append_assoc, skipWs_spaces,
      List.append_assoc, hh0, List.cons_append]
    exact skipWs_cons_not_ws hw0 _
  have hfu2 : jfuelItems x xs ≤ fuel := by
    have he : jfuel (Val.list (x :: xs)) = 1 + jfuelItems x xs := by simp [jfuel]
    omega
  have hcall : ∀ y ∈ x :: xs, jsonCompat y = true := (jsonCompat_list_iff _).mp hc
  have hnbc : NumBoundary ('\n' :: (spaces (2 * lvl) ++ (']' :: rest))) :=
    Or.inr ⟨'\n', _, rfl, Or.inr (Or.inl rfl)⟩
  have hclose : skipWs ('\n' :: (spaces (2 * lvl) ++ (']' :: rest))) = ']' :: rest := by
    rw [skipWs_cons_ws (by decide), skipWs_spaces]
    exact skipWs_cons_not_ws (by decide) _
  have hitems := ihI x xs (lvl + 1) ['\n']
    ('\n' :: (spaces (2 * lvl) ++ (']' :: rest))) rest
    (by intro c hcm; simp at hcm; rw [hcm]; rfl) hfu2 hcall hnbc hclose
  rw [List.singleton_append] at hitems
  rw [parseJson, hsk]
  simp [hsk1, hne0, hitems, degrade_list]

theorem parse_dict_cons_case (fuel lvl : Nat) (e : String × Val)
    (es : List (String × Val)) (pre rest : List Char) (hpre : allWs pre)
    (ihE : PE fuel) (hfu : jfuel (.dict (e :: es)) ≤ fuel + 1)
    (hc : jsonCompat (.dict (e :: es)) = true) (hnb : NumBoundary rest) :
    parseJson (fuel + 1) (pre ++ (jsonVal lvl (.dict (e :: es)) ++ rest)) =
      some (degrade (.dict (e :: es)), rest) := by
  have hv : jsonVal lvl (Val.dict (e :: es)) ++ rest
      = '\x7b' :: ('\n' :: (jsonEntries (lvl + 1) (e :: es)
        ++ ('\n' :: (spaces (2 * lvl) ++ ('\x7d' :: rest))))) := by
    simp [jsonVal]
  have hsk : skipWs (pre ++ (jsonVal lvl (Val.dict (e :: es)) ++ rest))
      = '\x7b' :: ('\n' :: (jsonEntries (lvl + 1) (e :: es)
        ++ ('\n' :: (spaces (2 * lvl) ++ ('\x7d' :: rest))))) := by
    rw [skipWs_append_ws pre _ hpre, hv]
    exact skipWs_cons_not_ws (by decide) _
  obtain ⟨tail, htail⟩ : ∃ tail, jsonEntries (lvl + 1) (e :: es)
      = spaces (2 * (lvl + 1)) ++ ('"' :: (escList e.1.data
        ++ ('"' :: (':' :: (' ' :: (jsonVal (lvl + 1) e.2 ++ tail)))))) := by
    obtain ⟨k, v⟩ := e
    cases es with
    | nil => exact ⟨[], by simp [jsonEntries]⟩
    | cons f t => exact ⟨',' :: ('\n' :: jsonEntries (lvl + 1) (f :: t)), by simp [jsonEntries]⟩
  have hsk1 : skipWs ('\n' :: (jsonEntries (lvl + 1) (e :: es)
      ++ ('\n' :: (spaces (2 * lvl) ++ ('\x7d' :: rest)))))
      = '"' :: ((escList e.1.data
        ++ ('"' :: (':' :: (' ' :: (jsonVal (lvl + 1) e.2 ++ tail)))))
        ++ ('\n' :: (spaces (2 * lvl) ++ ('\x7d' :: rest)))) := by
    rw [skipWs_cons_ws (by decide), htail, List.append_assoc, skipWs_spaces,
      List.cons_append]
    exact skipWs_cons_not_ws (by decide) _
  have hfu2 : jfuelEntries e es ≤ fuel := by
    have he : jfuel (Val.dict (e :: es)) = 1 + jfuelEntries e es := by simp [jfuel]
    omega
  have hcall : ∀ p ∈ e :: es, jsonCompat p.2 = true :=
    ((jsonCompat_dict_iff _).mp hc).2
  have hnbc : NumBoundary ('\n' :: (spaces (2 * lvl) ++ ('\x7d' :: rest))) :=
    Or.inr ⟨'\n', _, rfl, Or.inr (Or.inl rfl)⟩
  have hclose : skipWs ('\n' :: (spaces (2 * lvl) ++ ('\x7d' :: rest)))
      = '\x7d' :: rest := by
    rw [skipWs_cons_ws (by decide), skipWs_spaces]
    exact skipWs_cons_not_ws (by decide) _
  have hentries := ihE e es (lvl + 1) ['\n']
    ('\n' :: (spaces (2 * lvl) ++ ('\x7d' :: rest))) rest
    (by intro c hcm; simp at hcm; rw [hcm]; rfl) hfu2 hcall hnbc hclose
  rw [List.singleton_append] at hentries
  rw [parseJson, hsk]
  simp [hsk1, hentries, degrade_dict]

theorem stepPI (fuel : Nat) (ihJ : PJ fuel) (ihI : PI fuel) : PI (fuel + 1) := by
  intro x xs ind pre close rest hpre hfu hc hnb hcl
  have hpresp : allWs (pre ++ spaces (2 * ind)) := by
    intro c hcm
    rcases List.mem_append.mp hcm with h | h
    · exact hpre c h
    · exact spaces_all_ws (2 * ind) c h
  cases xs with
  | nil =>
    have hin : pre ++ (jsonItems ind [x] ++ close)
        = (pre ++ spaces (2 * ind)) ++ (jsonVal ind x ++ close) := by
      simp [jsonItems]
    have hfu2 : jfuel x ≤ fuel := by
      have he : jfuelItems x [] = 1 + jfuel x := by simp [jfuelItems]
      omega
    have hj := ihJ x ind (pre ++ spaces (2 * ind)) close hpresp hfu2
      (hc x (by simp)) hnb
    rw [parseItems, hin, hj]
    simp [hcl]
  | cons y t =>
    have hin : pre ++ (jsonItems ind (x :: y :: t) ++ close)
        = (pre ++ spaces (2 * ind)) ++ (jsonVal ind x
          ++ (',' :: ('\n' :: (jsonItems ind (y :: t) ++ close)))) := by
      simp [jsonItems]
    have hfu2 : jfuel x ≤ fuel := by
      have he : jfuelItems x (y :: t) = 1 + jfuel x + jfuelItems y t := by
        simp [jfuelItems]
      omega
    have hfu3 : jfuelItems y t ≤ fuel := by
      have he : jfuelItems x (y :: t) = 1 + jfuel x + jfuelItems y t := by
        simp [jfuelItems]
      omega
    have hj := ihJ x ind (pre ++ spaces (2 * ind))
      (',' :: ('\n' :: (jsonItems ind (y :: t) ++ close))) hpresp hfu2
      (hc x (by simp)) (Or.inr ⟨',', _, rfl, Or.inl rfl⟩)
    have hskr : skipWs (',' :: ('\n' :: (jsonItems ind (y :: t) ++ close)))
        = ',' :: ('\n' :: (jsonItems ind (y :: t) ++ close)) :=
      skipWs_cons_not_ws (by decide) _
    have hrec := ihI y t ind ['\n'] close rest
      (by intro c hcm; simp at hcm; rw [hcm]; rfl) hfu3
      (fun z hz => hc z (List.mem_cons_of_mem x hz)) hnb hcl
    rw [List.singleton_append] at hrec
    rw [parseItems, hin, hj]
    simp [hskr, hrec]

theorem stepPE (fuel : Nat) (ihJ : PJ fuel) (ihE : PE fuel) : PE (fuel + 1) := by
  intro e es ind pre close rest hpre hfu hc hnb hcl
  obtain ⟨k, v⟩ := e
  obtain ⟨kl⟩ := k
  cases es with
  | nil =>
    have hsk : skipWs (pre ++ (jsonEntries ind [(String.mk kl, v)] ++ close))
        = '"' :: (escList kl
          ++ ('"' :: (':' :: (' ' :: (jsonVal ind v ++ close))))) := by
      have hv : jsonEntries ind [(String.mk kl, v)] ++ close
          = spaces (2 * ind) ++ ('"' :: (escList kl
            ++ ('"' :: (':' :: (' ' :: (jsonVal ind v ++ close)))))) := by
        simp [jsonEntries]
      rw [skipWs_append_ws pre _ hpre, hv, skipWs_spaces]
      exact skipWs_cons_not_ws (by decide) _
    have hstr := parseStrBody_esc kl
      ((escList kl ++ ('"' :: (':' :: (' ' :: (jsonVal ind v ++ close))))).length + 1)
      (':' :: (' ' :: (jsonVal ind v ++ close)))
      (by have := escList_length_ge kl; simp [List.length_append]; omega)
    simp only [List.length_append, List.length_cons] at hstr
    have hfu2 : jfuel v ≤ fuel := by
      have he : jfuelEntries (String.mk kl, v) [] = 1 + jfuel v := by
        simp [jfuelEntries]
      omega
    have hj := ihJ v ind [' '] close
      (by intro c hcm; simp at hcm; rw [hcm]; rfl) hfu2
      (hc (String.mk kl, v) (by simp)) hnb
    rw [List.singleton_append] at hj
    have hsk2 : skipWs (':' :: (' ' :: (jsonVal ind v ++ close)))
        = ':' :: (' ' :: (jsonVal ind v ++ close)) :=
      skipWs_cons_not_ws (by decide) _
    rw [parseEntries, hsk]
    simp [hstr, hsk2, hj, hcl]
  | cons f t =>
    have hsk : skipWs (pre ++ (jsonEntries ind ((String.mk kl, v) :: f :: t) ++ close))
        = '"' :: (escList kl
          ++ ('"' :: (':' :: (' ' :: (jsonVal ind v
            ++ (',' :: ('\n' :: (jsonEntries ind (f :: t) ++ close)))))))) := by
      have hv : jsonEntries ind ((String.mk kl, v) :: f :: t) ++ close
          = spaces (2 * ind) ++ ('"' :: (escList kl
            ++ ('"' :: (':' :: (' ' :: (jsonVal ind v
              ++ (',' :: ('\n' :: (jsonEntries ind (f :: t) ++ close))))))))) := by
        simp [jsonEntries]
      rw [skipWs_append_ws pre _ hpre, hv, skipWs_spaces]
      exact skipWs_cons_not_ws (by decide) _
    have hstr := parseStrBody_esc kl
      ((escList kl ++ ('"' :: (':' :: (' ' :: (jsonVal ind v
        ++ (',' :: ('\n' :: (jsonEntries ind (f :: t) ++ close)))))))).length + 1)
      (':' :: (' ' :: (jsonVal ind v
        ++ (',' :: ('\n' :: (jsonEntries ind (f :: t) ++ close))))))
      (by have := escList_length_ge kl; simp [List.length_append]; omega)
    simp only [List.length_append, List.length_cons] at hstr
    have hfu2 : jfuel v ≤ fuel := by
      have he : jfuelEntries (String.mk kl, v) (f :: t)
          = 1 + jfuel v + jfuelEntries f t := by
        simp [jfuelEntries]
      omega
    have hfu3 : jfuelEntries f t ≤ fuel := by
      have he : jfuelEntries (String.mk kl, v) (f :: t)
          = 1 + jfuel v + jfuelEntries f t := by
        simp [jfuelEntries]
      omega
    have hj := ihJ v ind [' ']
      (',' :: ('\n' :: (jsonEntries ind (f :: t) ++ close)))
      (by intro c hcm; simp at hcm; rw [hcm]; rfl) hfu2
      (hc (String.mk kl, v) (by simp)) (Or.inr ⟨',', _, rfl, Or.inl rfl⟩)
    rw [List.singleton_append] at hj
    have hsk2 : skipWs (':' :: (' ' :: (jsonVal ind v
        ++ (',' :: ('\n' :: (jsonEntries ind (f :: t) ++ close))))))
        = ':' :: (' ' :: (jsonVal ind v
          ++ (',' :: ('\n' :: (jsonEntries ind (f :: t) ++ close))))) :=
      skipWs_cons_not_ws (by decide) _
    have hskr : skipWs (',' :: ('\n' :: (jsonEntries ind (f :: t) ++ close)))
        = ',' :: ('\n' :: (jsonEntries ind (f :: t) ++ close)) :=
      skipWs_cons_not_ws (by decide) _
    have hrec := ihE f t ind ['\n'] close rest
      (by intro c hcm; simp at hcm; rw [hcm]; rfl) hfu3
      (fun p hp => hc p (List.mem_cons_of_mem _ hp)) hnb hcl
    rw [List.singleton_append] at hrec
    rw [parseEntries, hsk]
    simp [hstr, hsk2, hj, hskr, hrec]

theorem stepPJ (fuel : Nat) (ihI : PI fuel) (ihE : PE fuel) : PJ (fuel + 1) := by
  intro v lvl pre rest hpre hfu hc hnb
  cases v with
  | none => exact parse_none_case fuel lvl pre rest hpre
  | bool b =>
    cases b with
    | true => exact parse_true_case fuel lvl pre rest hpre
    | false => exact parse_false_case fuel lvl pre rest hpre
  | num q => exact parse_num_case fuel lvl q pre rest hpre hc hnb
  | str s => exact parse_str_case fuel lvl s pre rest hpre
  | datetime s => exact parse_datetime_case fuel lvl s pre rest hpre
  | list xs =>
    cases xs with
    | nil => exact parse_list_nil_case fuel lvl pre rest hpre
    | cons x t => exact parse_list_cons_case fuel lvl x t pre rest hpre ihI hfu hc hnb
  | dict d =>
    cases d with
    | nil => exact parse_dict_nil_case fuel lvl pre rest hpre
    | cons e t => exact parse_dict_cons_case fuel lvl e t pre rest hpre ihE hfu hc hnb

theorem roundtrip_all : ∀ fuel : Nat, PJ fuel ∧ PI fuel ∧ PE fuel := by
  intro fuel
  induction fuel with
  | zero =>
    refine ⟨?_, ?_, ?_⟩
    · intro v lvl pre rest _ hfu
      have := jfuel_pos v
      omega
    · intro x xs ind pre close rest _ hfu
      have := jfuelItems_pos x xs
      omega
    · intro e es ind pre close rest _ hfu
      have := jfuelEntries_pos e es
      omega
  | succ fuel ih =>
    exact ⟨stepPJ fuel ih.2.1 ih.2.2, stepPI fuel ih.1 ih.2.1, stepPE fuel ih.1 ih.2.2⟩

mutual

theorem jfuel_le_len (v : Val) (lvl : Nat) : jfuel v ≤ (jsonVal lvl v).length := by
  cases v with
  | none => simp [jfuel, jsonVal]
  | bool b => cases b <;> simp [jfuel, jsonVal]
  | num q =>
    obtain ⟨c, t, hh, _⟩ := jsonNumChars_head q
    simp only [jfuel, jsonVal, hh, List.length_cons]
    omega
  | str s => simp [jfuel, jsonVal]
  | datetime s => simp [jfuel, jsonVal]
  | list xs =>
    cases xs with
    | nil => simp [jfuel, jsonVal]
    | cons x t =>
      have h := jfuelItems_le_len x t (lvl + 1)
      simp only [jfuel, jsonVal, List.length_cons, List.length_append]
      omega
  | dict d =>
    cases d with
    | nil => simp [jfuel, jsonVal]
    | cons e t =>
      have h := jfuelEntries_le_len e t (lvl + 1)
      simp only [jfuel, jsonVal, List.length_cons, List.length_append]
      omega
termination_by sizeOf v

theorem jfuelItems_le_len (x : Val) (xs : List Val) (ind : Nat) :
    jfuelItems x xs ≤ (jsonItems ind (x :: xs)).length + 1 := by
  cases xs with
  | nil =>
    have h := jfuel_le_len x ind
    simp only [jfuelItems, jsonItems, List.length_append]
    omega
  | cons y t =>
    have h1 := jfuel_le_len x ind
    have h2 := jfuelItems_le_len y t ind
    simp only [jfuelItems, jsonItems, List.length_append, List.length_cons]
    omega
termination_by 1 + sizeOf x + sizeOf xs

theorem jfuelEntries_le_len (e : String × Val) (es : List (String × Val)) (ind : Nat) :
    jfuelEntries e es ≤ (jsonEntries ind (e :: es)).length + 1 := by
  obtain ⟨k, v⟩ := e
  cases es with
  | nil =>
    have h := jfuel_le_len v ind
    simp only [jfuelEntries, jsonEntries, List.length_append, List.length_cons]
    omega
  | cons f t =>
    have h1 := jfuel_le_len v ind
    have h2 := jfuelEntries_le_len f t ind
    simp only [jfuelEntries, jsonEntries, List.length_append, List.length_cons]
    omega
termination_by 1 + sizeOf e + sizeOf es

end

/-- C9: for every JSON-compatible case record (numbers with terminating
decimal expansions, mappings with distinct keys), parsing the Export
Formatter's JSON output (`json.dumps(case_data, indent=2, default=str)`)
reconstructs the original record with every `datetime` degraded to its
string form; on records containing no `datetime` the round trip is
lossless. -/
theorem export_json_roundtrip (v : Val) (hc : jsonCompat v = true) :
    pyJsonLoads (export_case_data_json v) = some (degrade v) ∧
      (noDatetime v = true → degrade v = v) := by
  constructor
  · rw [pyJsonLoads, export_case_data_json]
    have hlen : (String.mk (jsonVal 0 v)).length = (jsonVal 0 v).length := rfl
    have hdata : (String.mk (jsonVal 0 v)).data = jsonVal 0 v := rfl
    have hfu : jfuel v ≤ (jsonVal 0 v).length + 1 :=
      le_trans (jfuel_le_len v 0) (by omega)
    have hparse := (roundtrip_all ((jsonVal 0 v).length + 1)).1 v 0 [] []
      (by intro c hc2; cases hc2) hfu hc (Or.inl rfl)
    rw [List.nil_append, List.append_nil] at hparse
    rw [hlen, hdata, hparse]
    rfl
  · exact degrade_id v

set_option maxRecDepth 4000 in
theorem export_json_roundtrip_witness :
    jsonCompat sampleCaseRecord = true ∧
      pyJsonLoads (export_case_data_json sampleCaseRecord)
        = some (degrade sampleCaseRecord) :=
  ⟨by with_unfolding_all rfl,
   (export_json_roundtrip sampleCaseRecord (by with_unfolding_all rfl)).1⟩

end HealthMind
